import Mathlib

/-!
Verification development for the Figma extractor's classification and
preprocessing core (src/src/json_preprocessor.py), its filename derivation
(src/src/figma_extractor.py) and the bitmap-reference extraction
(src/src/figma_extractor.py, src/enhanced_figma_extractor.py).

The Python code is shallowly embedded: JSON node dictionaries become the
`PNode` inductive (fields the code reads; a key that may be absent is an
`Option`), Python dicts that the code builds keyed by node id become
insertion-ordered association lists with overwrite-on-existing-key
(`dictInsert`), and Python sets of strings become duplicate-free lists built
with `insertSet`.  All functions are direct translations of the source;
the `...Spec`-suffixed definitions and the paired id-collection functions
(`vecChildList`, `ivcPairs`, ...) are proof-side shadows used to state and
prove properties of the translations.
-/

/-- Counter aggregate `self.stats` of `JSONPreprocessor.__init__`
(json_preprocessor.py lines 16-25).  Field names are the snake_case keys
of the Python dict. -/
structure Stats where
  totalNodesScanned : Nat
  groupsAnalyzed : Nat
  vectorChildrenFound : Nat
  individualVectorsFound : Nat
  textNodesFiltered : Nat
  imageShapesFiltered : Nat
  emptyGroupsSkipped : Nat
  totalVectorExports : Nat
deriving DecidableEq, Repr

/-- One entry of a `fills` list.  `_has_solid_fills` only asks whether the
entry is a dict (`isinstance(fill, dict)`) and what its `type` key holds,
so the embedding keeps exactly that much structure. -/
inductive Fill : Type where
  | fdict : (ftype : Option String) → Fill
  | fother : Fill
deriving DecidableEq, Repr

/-- A Figma document node as read by the preprocessor: the code accesses
`id`, `type`, `name`, `fills`, `isMask`, `children` and
`absoluteBoundingBox`, each via `.get` with a default, so each is an
`Option`.  The bounding box is never inspected, only copied, so its payload
is kept opaque as a `String`. -/
inductive PNode : Type where
  | mk : (nid : Option String) → (ntype : Option String) → (nname : Option String) →
         (fills : Option (List Fill)) → (isMask : Option Bool) →
         (children : Option (List PNode)) → (bbox : Option String) → PNode

/-- `node.get('id', '')` -/
def PNode.idD : PNode → String
  | .mk i _ _ _ _ _ _ => i.getD ""

/-- `node.get('type', '')` -/
def PNode.typeD : PNode → String
  | .mk _ t _ _ _ _ _ => t.getD ""

/-- `node.get('name', default)` — the default differs between call sites
('Unnamed' in `analyze_node`, 'Vector' in `examine_child`). -/
def PNode.nameOr : PNode → String → String
  | .mk _ _ n _ _ _ _, d => n.getD d

/-- `node.get('fills', [])` -/
def PNode.fillsD : PNode → List Fill
  | .mk _ _ _ f _ _ _ => f.getD []

/-- `node.get('isMask', False)` -/
def PNode.maskD : PNode → Bool
  | .mk _ _ _ _ m _ _ => m.getD false

/-- `node.get('children', [])`; iterating an absent key and an empty list
are indistinguishable, which also covers the `'children' in node` guard of
`analyze_node` (an absent key yields an empty iteration). -/
def PNode.childrenD : PNode → List PNode
  | .mk _ _ _ _ _ (some l) _ => l
  | .mk _ _ _ _ _ none _ => []

/-- `node.get('absoluteBoundingBox', {})`; `none` models the absent key,
whose `{}` default is likewise never inspected downstream. -/
def PNode.bboxD : PNode → Option String
  | .mk _ _ _ _ _ _ b => b

/-- `JSONPreprocessor._has_solid_fills` (json_preprocessor.py 235-243). -/
def hasSolidFills (n : PNode) : Bool :=
  n.fillsD.any fun f =>
    match f with
    | .fdict t => t == some "SOLID"
    | .fother => false

/-- `JSONPreprocessor._is_pure_vector` (json_preprocessor.py 215-233),
keeping the source's sequence of early returns. -/
def isPureVector (n : PNode) : Bool :=
  if n.typeD != "VECTOR" then false
  else if !hasSolidFills n then false
  else if n.maskD then false
  else true

/-- A vector-child descriptor appended by `examine_child`
(json_preprocessor.py 172-177): `{'id', 'name', 'type', 'bounds'}`. -/
structure VecChild where
  vid : String
  vname : String
  vtype : String
  bounds : Option String
deriving DecidableEq, Repr

/-- The mutable context of one `_analyze_group_content` call: the shared
statistics plus the two local accumulator lists. -/
structure GroupScan where
  stats : Stats
  vectorChildren : List VecChild
  nonVectorChildren : List String
deriving Repr

/-- The body of `examine_child` before its recursion into grandchildren
(json_preprocessor.py 164-199): the include test followed by the
exclusion `elif` chain, appending to the accumulators. -/
def examineStep (gs : GroupScan) (c : PNode) : GroupScan :=
  let ctype := c.typeD
  if ctype == "VECTOR" && hasSolidFills c && !c.maskD then
    { gs with vectorChildren := gs.vectorChildren ++
        [{ vid := c.idD, vname := c.nameOr "Vector", vtype := ctype, bounds := c.bboxD }] }
  else if ctype == "TEXT" then
    { gs with stats := { gs.stats with textNodesFiltered := gs.stats.textNodesFiltered + 1 },
              nonVectorChildren := gs.nonVectorChildren ++ ["TEXT"] }
  else if ctype == "RECTANGLE" || ctype == "ELLIPSE" then
    { gs with stats := { gs.stats with imageShapesFiltered := gs.stats.imageShapesFiltered + 1 },
              nonVectorChildren := gs.nonVectorChildren ++ ["SHAPE"] }
  else if c.maskD then
    { gs with stats := { gs.stats with imageShapesFiltered := gs.stats.imageShapesFiltered + 1 },
              nonVectorChildren := gs.nonVectorChildren ++ ["MASK"] }
  else
    { gs with nonVectorChildren := gs.nonVectorChildren ++ [ctype] }

mutual
/-- `examine_child` of `_analyze_group_content` (json_preprocessor.py
160-203): entry guard `depth > 5`, classification step, then recursion into
every child at `depth + 1`. -/
def examineChild (gs : GroupScan) (c : PNode) (depth : Nat) : GroupScan :=
  if depth > 5 then gs
  else
    match c with
    | .mk _ _ _ _ _ (some l) _ => examineChildren (examineStep gs c) l (depth + 1)
    | .mk _ _ _ _ _ none _ => examineStep gs c
/-- The `for grandchild in child.get('children', [])` loop. -/
def examineChildren (gs : GroupScan) (l : List PNode) (depth : Nat) : GroupScan :=
  match l with
  | [] => gs
  | c :: rest => examineChildren (examineChild gs c depth) rest depth
end


/-- `JSONPreprocessor._analyze_group_content` (json_preprocessor.py
153-213): scans the group's own children at depth 0.  The returned
`GroupScan` carries `vector_children`, the exclusion tags and the updated
statistics; the joined `filtered_content` string of the source's return
value is a display artifact never read by any caller and is represented by
the `nonVectorChildren` list itself. -/
def analyzeGroupContent (stats : Stats) (g : PNode) : GroupScan :=
  examineChildren { stats := stats, vectorChildren := [], nonVectorChildren := [] } g.childrenD 0

/-- The `{'id': ..., 'name': ...}` dict bound to `current_group` in
`analyze_node` (json_preprocessor.py 132). -/
structure GroupRef where
  gid : String
  gname : String
deriving DecidableEq, Repr

/-- One value of `self.individual_vector_children`
(json_preprocessor.py 95-104). -/
structure ChildRec where
  cid : String
  cname : String
  ctype : String
  cpath : String
  bounds : Option String
  parentGroupId : String
  parentGroupName : String
  extractionReason : String
deriving DecidableEq, Repr

/-- One value of `self.standalone_vectors` (json_preprocessor.py 117-124). -/
structure StandaloneRec where
  sid : String
  sname : String
  stype : String
  spath : String
  bounds : Option String
  extractionReason : String
deriving DecidableEq, Repr

/-- Python dict assignment `d[k] = v` on an insertion-ordered dict:
overwrite in place (keeping the original position) when the key exists,
append otherwise. -/
def dictInsert {α : Type} (d : List (String × α)) (k : String) (v : α) : List (String × α) :=
  match d with
  | [] => [(k, v)]
  | p :: rest => if p.1 == k then (k, v) :: rest else p :: dictInsert rest k v

/-- A sequence of dict assignments. -/
def insertAll {α : Type} (d : List (String × α)) (l : List (String × α)) : List (String × α) :=
  l.foldl (fun acc p => dictInsert acc p.1 p.2) d

/-- Python dict lookup `d[k]` / `d.get(k)` (first matching key; keys of a
dict built by `dictInsert` are unique). -/
def lookupA {α : Type} : List (String × α) → String → Option α
  | [], _ => none
  | p :: rest, k => if p.1 == k then some p.2 else lookupA rest k

/-- The state owned by one `_analyze_groups_for_individual_children` run:
the statistics and the two result dicts keyed by node id. -/
structure AState where
  stats : Stats
  ivc : List (String × ChildRec)
  sv : List (String × StandaloneRec)
deriving Repr

/-- The record built for one vector child claimed by a group
(json_preprocessor.py 95-104). -/
def mkChildRec (vc : VecChild) (currentPath gid gname : String) : ChildRec :=
  { cid := vc.vid, cname := vc.vname, ctype := vc.vtype,
    cpath := currentPath ++ "/" ++ vc.vname, bounds := vc.bounds,
    parentGroupId := gid, parentGroupName := gname,
    extractionReason := "VECTOR_CHILD_FROM_GROUP" }

/-- The body of the `for vector_child in group_analysis['vector_children']`
loop of `analyze_node` (json_preprocessor.py 91-107): record the child and
bump the counter. -/
def groupInsertStep (cp gid gname : String) (s : AState) (vc : VecChild) : AState :=
  { s with ivc := dictInsert s.ivc vc.vid (mkChildRec vc cp gid gname),
           stats := { s.stats with vectorChildrenFound := s.stats.vectorChildrenFound + 1 } }

mutual
/-- `analyze_node` of `_analyze_groups_for_individual_children`
(json_preprocessor.py 74-135): GROUP nodes are decomposed by
`_analyze_group_content` and not recursed into; a pure vector visited with
`parent_group is None` is recorded standalone; recursion passes a fresh
`current_group` under FRAME/COMPONENT/INSTANCE. -/
def analyzeNode (st : AState) (n : PNode) (path : String) (parentGroup : Option GroupRef) : AState :=
  match n with
  | .mk nid ntype nname nfills nmask nch nbb =>
    let node : PNode := .mk nid ntype nname nfills nmask nch nbb
    let st0 := { st with stats :=
      { st.stats with totalNodesScanned := st.stats.totalNodesScanned + 1 } }
    let nodeType := node.typeD
    let nodeId := node.idD
    let nodeName := node.nameOr "Unnamed"
    let currentPath := if path == "" then nodeName else path ++ "/" ++ nodeName
    if nodeType == "GROUP" then
      let stG := { st0 with stats :=
        { st0.stats with groupsAnalyzed := st0.stats.groupsAnalyzed + 1 } }
      let scan := analyzeGroupContent stG.stats node
      let stG2 := { stG with stats := scan.stats }
      if scan.vectorChildren.isEmpty then
        { stG2 with stats :=
          { stG2.stats with emptyGroupsSkipped := stG2.stats.emptyGroupsSkipped + 1 } }
      else
        scan.vectorChildren.foldl (groupInsertStep currentPath nodeId nodeName) stG2
    else
      let st1 :=
        if isPureVector node && parentGroup.isNone then
          let sRec : StandaloneRec :=
            { sid := nodeId, sname := nodeName, stype := nodeType, spath := currentPath,
              bounds := node.bboxD, extractionReason := "STANDALONE_VECTOR" }
          { st0 with sv := dictInsert st0.sv nodeId sRec,
                     stats := { st0.stats with
                       individualVectorsFound := st0.stats.individualVectorsFound + 1 } }
        else st0
      match nch with
      | some children =>
        let currentGroup :=
          if nodeType == "FRAME" || nodeType == "COMPONENT" || nodeType == "INSTANCE" then
            some { gid := nodeId, gname := nodeName }
          else parentGroup
        analyzeChildren st1 children currentPath currentGroup
      | none => st1
/-- The `for child in node['children']` loop of `analyze_node`. -/
def analyzeChildren (st : AState) (l : List PNode) (path : String) (parentGroup : Option GroupRef) : AState :=
  match l with
  | [] => st
  | c :: rest => analyzeChildren (analyzeNode st c path parentGroup) rest path parentGroup
end


/-- The top-level input: the preprocessor only reads `figma_data['document']`
and replaces the `_svgDownloads` / `_svgMapping` / `_metadata` keys; all
other top-level entries are deep-copied through unchanged and are not
modeled. -/
structure FigmaData where
  document : Option PNode

/-- `figma_data['document'].get('children', [])` guarded by
`'document' in figma_data` (json_preprocessor.py 138-141). -/
def docChildren (fd : FigmaData) : List PNode :=
  match fd.document with
  | some doc => doc.childrenD
  | none => []

/-- Freshly reset state (`_reset_stats`, json_preprocessor.py 61-66). -/
def initState : AState :=
  { stats := { totalNodesScanned := 0, groupsAnalyzed := 0, vectorChildrenFound := 0,
               individualVectorsFound := 0, textNodesFiltered := 0, imageShapesFiltered := 0,
               emptyGroupsSkipped := 0, totalVectorExports := 0 },
    ivc := [], sv := [] }

/-- `_analyze_groups_for_individual_children` (json_preprocessor.py
68-151): traverses every page of the document and then records the total
export count. -/
def runAnalysis (fd : FigmaData) : AState :=
  let st := analyzeChildren initState (docChildren fd) "" none
  { st with stats :=
    { st.stats with totalVectorExports := st.ivc.length + st.sv.length } }

/-- Python `s.replace(':', '_')` — a single-character needle, hence a
character-wise map. -/
def pyReplaceColon (s : String) : String :=
  ⟨s.data.map fun ch => if ch == ':' then '_' else ch⟩

/-- `JSONPreprocessor._generate_filename` (json_preprocessor.py 305-307). -/
def generateFilename (nodeId : String) : String :=
  pyReplaceColon nodeId ++ ".svg"

/-- `FigmaExtractor.sanitize_svg_filename` (figma_extractor.py 729-734);
the `name` argument is accepted and ignored by the source. -/
def sanitizeSvgFilename (nodeId : String) (_name : String) : String :=
  pyReplaceColon nodeId ++ ".svg"

/-- One value of the `_svgDownloads` map (json_preprocessor.py 257-281).
Standalone entries omit the two parent keys in the source; the omitted key
is modeled as `none`. -/
structure DownloadRec where
  nodeId : String
  dtype : String
  isGroup : Bool
  componentName : String
  dpath : String
  filename : String
  extractionReason : String
  parentGroupId : Option String
  parentGroupName : Option String
  bounds : Option String
deriving DecidableEq, Repr

/-- One value of the `_svgMapping` map (json_preprocessor.py 290-294). -/
structure MappingRec where
  filename : String
  isGroup : Bool
  componentName : String
deriving DecidableEq, Repr

/-- The `_svgDownloads` entry built from an individual vector child
(json_preprocessor.py 257-268). -/
def childToDownload (k : String) (c : ChildRec) : DownloadRec :=
  { nodeId := k, dtype := "VECTOR", isGroup := false, componentName := c.cname,
    dpath := c.cpath, filename := generateFilename k,
    extractionReason := c.extractionReason,
    parentGroupId := some c.parentGroupId, parentGroupName := some c.parentGroupName,
    bounds := c.bounds }

/-- The `_svgDownloads` entry built from a standalone vector
(json_preprocessor.py 272-281). -/
def svToDownload (k : String) (s : StandaloneRec) : DownloadRec :=
  { nodeId := k, dtype := "VECTOR", isGroup := false, componentName := s.sname,
    dpath := s.spath, filename := generateFilename k,
    extractionReason := s.extractionReason,
    parentGroupId := none, parentGroupName := none,
    bounds := s.bounds }

/-- `_generate_child_based_json` (json_preprocessor.py 245-303) restricted
to the two maps it builds: `_svgDownloads` (children first, then
standalones) and `_svgMapping` (keyed by the sanitized id). -/
def generateChildBasedJson (st : AState) :
    List (String × DownloadRec) × List (String × MappingRec) :=
  let downloads := insertAll
    (insertAll [] (st.ivc.map fun p => (p.1, childToDownload p.1 p.2)))
    (st.sv.map fun p => (p.1, svToDownload p.1 p.2))
  let mapping := insertAll [] (downloads.map fun p =>
    (pyReplaceColon p.1,
     { filename := p.2.filename, isGroup := false, componentName := p.2.componentName }))
  (downloads, mapping)

/-- The `_metadata['preprocessing']` block written by
`_add_preprocessing_metadata` (json_preprocessor.py 309-328).
`processedAt` holds the `datetime.now().isoformat()` value, which the
embedding makes an explicit input. -/
structure PreMeta where
  processedAt : String
  version : String
  approach : String
  statistics : Stats
  vectorTypesIncluded : List String
  contentExcluded : List String
  fillTypesRequired : List String
  extractionStrategy : String
  preprocessingApplied : Bool
deriving DecidableEq, Repr

/-- `_add_preprocessing_metadata` (json_preprocessor.py 309-328). -/
def addPreprocessingMetadata (now : String) (stats : Stats) : PreMeta :=
  { processedAt := now, version := "3.0_child_based_extraction_fixed",
    approach := "child_based_individual_extraction", statistics := stats,
    vectorTypesIncluded := ["VECTOR"], contentExcluded := ["TEXT", "SHAPES", "MASKS"],
    fillTypesRequired := ["SOLID"], extractionStrategy := "individual_vector_children",
    preprocessingApplied := true }

/-- The optimized JSON document produced by `preprocess_figma_json`: the
deep copy of the input (value semantics in the embedding) with the three
reserved keys set. -/
structure OptimizedData where
  document : Option PNode
  svgDownloads : List (String × DownloadRec)
  svgMapping : List (String × MappingRec)
  metadata : PreMeta

/-- `JSONPreprocessor.preprocess_figma_json` (json_preprocessor.py 31-59)
without the optional file save: reset statistics, analyze, generate the
child-based structure, attach metadata.  `now` is the wall-clock string the
source obtains from `datetime.now().isoformat()`. -/
def preprocessFigmaJson (now : String) (fd : FigmaData) : OptimizedData :=
  let st := runAnalysis fd
  let gen := generateChildBasedJson st
  { document := fd.document, svgDownloads := gen.1, svgMapping := gen.2,
    metadata := addPreprocessingMetadata now st.stats }

/-! ### Proof-side shadows of the traversals

These recursive collectors restate, without threaded state, exactly what
each traversal appends or inserts; the characterization lemmas below prove
them equal to the stateful translations. -/

/-- The include condition of `examine_child` (json_preprocessor.py 171). -/
def includeCond (c : PNode) : Bool :=
  c.typeD == "VECTOR" && hasSolidFills c && !c.maskD

/-- The descriptor appended for an included vector child. -/
def mkVecChild (c : PNode) : VecChild :=
  { vid := c.idD, vname := c.nameOr "Vector", vtype := c.typeD, bounds := c.bboxD }

def stepVec (c : PNode) : List VecChild :=
  if includeCond c then [mkVecChild c] else []

/-- The exclusion tag of the `elif` chain of `examine_child`
(json_preprocessor.py 181-199), evaluated in source order. -/
def exclReason (c : PNode) : String :=
  if c.typeD == "TEXT" then "TEXT"
  else if c.typeD == "RECTANGLE" || c.typeD == "ELLIPSE" then "SHAPE"
  else if c.maskD then "MASK"
  else c.typeD

def stepExcl (c : PNode) : List String :=
  if includeCond c then [] else [exclReason c]

mutual
/-- Vector children collected by `examine_child` from node `c` at `depth`. -/
def vecChildList (c : PNode) (depth : Nat) : List VecChild :=
  if depth > 5 then []
  else
    match c with
    | .mk _ _ _ _ _ (some l) _ => stepVec c ++ vecChildListL l (depth + 1)
    | .mk _ _ _ _ _ none _ => stepVec c
def vecChildListL (l : List PNode) (depth : Nat) : List VecChild :=
  match l with
  | [] => []
  | c :: rest => vecChildList c depth ++ vecChildListL rest depth
end


mutual
/-- Exclusion tags collected by `examine_child` from node `c` at `depth`. -/
def exclList (c : PNode) (depth : Nat) : List String :=
  if depth > 5 then []
  else
    match c with
    | .mk _ _ _ _ _ (some l) _ => stepExcl c ++ exclListL l (depth + 1)
    | .mk _ _ _ _ _ none _ => stepExcl c
def exclListL (l : List PNode) (depth : Nat) : List String :=
  match l with
  | [] => []
  | c :: rest => exclList c depth ++ exclListL rest depth
end


mutual
/-- All node ids of a subtree, in pre-order. -/
def subtreeIds (n : PNode) : List String :=
  match n with
  | .mk _ _ _ _ _ (some l) _ => n.idD :: subtreeIdsL l
  | .mk _ _ _ _ _ none _ => [n.idD]
def subtreeIdsL (l : List PNode) : List String :=
  match l with
  | [] => []
  | c :: rest => subtreeIds c ++ subtreeIdsL rest
end


mutual
/-- All nodes of a subtree, in pre-order. -/
def subtreeNodes (n : PNode) : List PNode :=
  match n with
  | .mk _ _ _ _ _ (some l) _ => n :: subtreeNodesL l
  | .mk _ _ _ _ _ none _ => [n]
def subtreeNodesL (l : List PNode) : List PNode :=
  match l with
  | [] => []
  | c :: rest => subtreeNodes c ++ subtreeNodesL rest
end


mutual
/-- The `(id, record)` pairs inserted into `individual_vector_children`
while `analyze_node` traverses `n`. -/
def ivcPairs (n : PNode) (path : String) : List (String × ChildRec) :=
  match n with
  | .mk nid ntype nname nfills nmask nch nbb =>
    let node : PNode := .mk nid ntype nname nfills nmask nch nbb
    let nodeType := node.typeD
    let nodeId := node.idD
    let nodeName := node.nameOr "Unnamed"
    let currentPath := if path == "" then nodeName else path ++ "/" ++ nodeName
    if nodeType == "GROUP" then
      (vecChildListL node.childrenD 0).map fun vc =>
        (vc.vid, mkChildRec vc currentPath nodeId nodeName)
    else
      match nch with
      | some children => ivcPairsL children currentPath
      | none => []
def ivcPairsL (l : List PNode) (path : String) : List (String × ChildRec) :=
  match l with
  | [] => []
  | c :: rest => ivcPairs c path ++ ivcPairsL rest path
end


mutual
/-- The `(id, record)` pairs inserted into `standalone_vectors` while
`analyze_node` traverses `n` with ancestor context `parentGroup`. -/
def svPairs (n : PNode) (path : String) (parentGroup : Option GroupRef) :
    List (String × StandaloneRec) :=
  match n with
  | .mk nid ntype nname nfills nmask nch nbb =>
    let node : PNode := .mk nid ntype nname nfills nmask nch nbb
    let nodeType := node.typeD
    let nodeId := node.idD
    let nodeName := node.nameOr "Unnamed"
    let currentPath := if path == "" then nodeName else path ++ "/" ++ nodeName
    if nodeType == "GROUP" then []
    else
      let head : List (String × StandaloneRec) :=
        if isPureVector node && parentGroup.isNone then
          [(nodeId, { sid := nodeId, sname := nodeName, stype := nodeType, spath := currentPath,
                      bounds := node.bboxD, extractionReason := "STANDALONE_VECTOR" })]
        else []
      match nch with
      | some children =>
        let currentGroup :=
          if nodeType == "FRAME" || nodeType == "COMPONENT" || nodeType == "INSTANCE" then
            some { gid := nodeId, gname := nodeName }
          else parentGroup
        head ++ svPairsL children currentPath currentGroup
      | none => head
def svPairsL (l : List PNode) (path : String) (parentGroup : Option GroupRef) :
    List (String × StandaloneRec) :=
  match l with
  | [] => []
  | c :: rest => svPairs c path parentGroup ++ svPairsL rest path parentGroup
end


/-- Ids of every node on every page of the document. -/
def docIds (fd : FigmaData) : List String :=
  subtreeIdsL (docChildren fd)

/-- Every node on every page of the document. -/
def docNodes (fd : FigmaData) : List PNode :=
  subtreeNodesL (docChildren fd)

/-! ### Reachability along the outer traversal -/

/-- Paths along which `analyze_node` recurses with `parent_group` still
`None`: no GROUP on the way (traversal stops at groups) and no
FRAME/COMPONENT/INSTANCE (those install a `current_group`). -/
inductive reachClean : PNode → PNode → Prop where
  | refl (n : PNode) : reachClean n n
  | step {n c m : PNode} :
      n.typeD ≠ "GROUP" → n.typeD ≠ "FRAME" → n.typeD ≠ "COMPONENT" → n.typeD ≠ "INSTANCE" →
      c ∈ n.childrenD → reachClean c m → reachClean n m

/-- Paths along which `analyze_node` recurses (no GROUP strictly above the
target; frame-like containers are allowed since the GROUP branch ignores
`parent_group`). -/
inductive reachNG : PNode → PNode → Prop where
  | refl (n : PNode) : reachNG n n
  | step {n c m : PNode} :
      n.typeD ≠ "GROUP" → c ∈ n.childrenD → reachNG c m → reachNG n m

/-- `scanFindAt c d m dm`: starting `examine_child` on `c` at depth `d`
examines the node `m` at depth `dm` (the depth cap admits it). -/
inductive scanFindAt : PNode → Nat → PNode → Nat → Prop where
  | here {c : PNode} {d : Nat} : d ≤ 5 → scanFindAt c d c d
  | deeper {c : PNode} {d : Nat} {gc m : PNode} {dm : Nat} :
      d ≤ 5 → gc ∈ c.childrenD → scanFindAt gc (d + 1) m dm → scanFindAt c d m dm

/-! ### Filename derivation -/

/-- Boolean recognizer of the native id format `"<major>:<minor>"`: a
nonempty run of digits, one colon, a nonempty run of digits. -/
def isMajorMinorB (s : String) : Bool :=
  let a := s.data.takeWhile (fun ch => !(ch == ':'))
  match s.data.dropWhile (fun ch => !(ch == ':')) with
  | c :: rest =>
      c == ':' && !a.isEmpty && a.all Char.isDigit && !rest.isEmpty && rest.all Char.isDigit
  | [] => false

/-! ### Bitmap reference extraction

`find_image_references_and_nodes` (figma_extractor.py 176-210) walks raw
JSON values; `_extract_image_references` (enhanced_figma_extractor.py
565-603) walks the node tree through `children`.  Python sets of strings
become duplicate-free lists built with `insertSet`.  Malformed input on
which the Python source would raise (a non-list paint container, a
non-dict paint entry, a non-string or unhashable `imageRef`) is skipped by
the model; the claims concern well-formed paint-descriptor lists. -/

/-- A JSON value.  Object fields keep insertion order. -/
inductive Json : Type where
  | str : String → Json
  | num : Int → Json
  | jbool : Bool → Json
  | null : Json
  | arr : List Json → Json
  | obj : List (String × Json) → Json

/-- `obj.get(k)`; `none` for absent keys and non-objects. -/
def jLookup (j : Json) (k : String) : Option Json :=
  match j with
  | .obj fields => lookupA fields k
  | _ => none

/-- Python `set.add`. -/
def insertSet (s : List String) (x : String) : List String :=
  if x ∈ s then s else s ++ [x]

/-- The two sets accumulated by `find_image_references_and_nodes`. -/
structure RState where
  refs : List String
  nodes : List String
deriving Repr

/-- One iteration of the `for fill in obj['fills']` /
`for bg in obj['backgrounds']` loops (figma_extractor.py 188-200):
`fill.get('type') == 'IMAGE' and 'imageRef' in fill` records the
reference, and the nearest containing node id when one exists. -/
def addFillRef (cur : Option String) (st : RState) (f : Json) : RState :=
  match f with
  | .obj ff =>
    match lookupA ff "type", lookupA ff "imageRef" with
    | some (.str ty), some (.str r) =>
      if ty == "IMAGE" then
        { refs := insertSet st.refs r,
          nodes := match cur with
            | some n => insertSet st.nodes n
            | none => st.nodes }
      else st
    | _, _ => st
  | _ => st

mutual
/-- `traverse` of `find_image_references_and_nodes` (figma_extractor.py
181-207): on a dict, refresh `current_node_id` from a colon-containing
string `id`, scan `fills` and `backgrounds`, then traverse every value;
on a list, traverse every item. -/
def travJson (st : RState) (cur : Option String) (j : Json) : RState :=
  match j with
  | .obj fields =>
    let cur2 := match lookupA fields "id" with
      | some (.str s) => if s.data.contains ':' then some s else cur
      | _ => cur
    let st1 := match lookupA fields "fills" with
      | some (.arr fs) => fs.foldl (addFillRef cur2) st
      | _ => st
    let st2 := match lookupA fields "backgrounds" with
      | some (.arr bs) => bs.foldl (addFillRef cur2) st1
      | _ => st1
    travFields st2 cur2 fields
  | .arr xs => travList st cur xs
  | _ => st
def travList (st : RState) (cur : Option String) (l : List Json) : RState :=
  match l with
  | [] => st
  | x :: rest => travList (travJson st cur x) cur rest
def travFields (st : RState) (cur : Option String) (l : List (String × Json)) : RState :=
  match l with
  | [] => st
  | p :: rest => travFields (travJson st cur p.2) cur rest
end


/-- `find_image_references_and_nodes` (figma_extractor.py 176-210). -/
def findImageReferencesAndNodes (d : Json) : List String × List String :=
  let st := travJson { refs := [], nodes := [] } none d
  (st.refs, st.nodes)

/-- One iteration of the paint loops of `_extract_image_references`
(enhanced_figma_extractor.py 573-593): `isinstance(fill, dict)`,
`type == 'IMAGE'`, then a truthy `imageRef`. -/
def addFillRef2 (refs : List String) (f : Json) : List String :=
  match f with
  | .obj ff =>
    match lookupA ff "type", lookupA ff "imageRef" with
    | some (.str ty), some (.str r) =>
      if ty == "IMAGE" && !r.isEmpty then insertSet refs r else refs
    | _, _ => refs
  | _ => refs

mutual
/-- `traverse_node` of `_extract_image_references`
(enhanced_figma_extractor.py 570-597): scan `fills`, `backgrounds` and the
legacy `background` list, then recurse into `children`.  The recursion is
written as a scan over the object's fields for the `children` key, which
agrees with `node.get('children')` because JSON object keys are unique. -/
def travNode (refs : List String) (j : Json) : List String :=
  match j with
  | .obj fields =>
    let r1 := match lookupA fields "fills" with
      | some (.arr fs) => fs.foldl addFillRef2 refs
      | _ => refs
    let r2 := match lookupA fields "backgrounds" with
      | some (.arr bs) => bs.foldl addFillRef2 r1
      | _ => r1
    let r3 := match lookupA fields "background" with
      | some (.arr bs) => bs.foldl addFillRef2 r2
      | _ => r2
    travNodeFields r3 fields
  | _ => refs
def travNodeFields (refs : List String) (l : List (String × Json)) : List String :=
  match l with
  | [] => refs
  | (k, v) :: rest =>
    let r := if k == "children" then
        match v with
        | .arr cs => travNodeList refs cs
        | _ => refs
      else refs
    travNodeFields r rest
def travNodeList (refs : List String) (l : List Json) : List String :=
  match l with
  | [] => refs
  | x :: rest => travNodeList (travNode refs x) rest
end


/-- `_extract_image_references` (enhanced_figma_extractor.py 565-603):
starts from `file_data.get('document', {})`. -/
def extractImageReferences (fileData : Json) : List String :=
  travNode [] (match jLookup fileData "document" with
    | some d => d
    | none => .obj [])

/-! Specification-side collectors (the refinement comparison for the
reference-extraction contract): the distinct `imageRef` values of every
`fills` / `backgrounds` / legacy `background` paint-descriptor list whose
entry has type `IMAGE`, and the nearest containing node ids. -/

/-- The reference recorded by one paint entry under the
`find_image_references_and_nodes` rules. -/
def refOf (f : Json) : Option String :=
  match f with
  | .obj ff =>
    match lookupA ff "type", lookupA ff "imageRef" with
    | some (.str ty), some (.str r) => if ty == "IMAGE" then some r else none
    | _, _ => none
  | _ => none

/-- The reference recorded by one paint entry under the
`_extract_image_references` rules (truthy `imageRef`). -/
def refOf2 (f : Json) : Option String :=
  match f with
  | .obj ff =>
    match lookupA ff "type", lookupA ff "imageRef" with
    | some (.str ty), some (.str r) =>
      if ty == "IMAGE" && !r.isEmpty then some r else none
    | _, _ => none
  | _ => none

/-- References of one optional paint-descriptor list. -/
def paintRefs (v : Option Json) : List String :=
  match v with
  | some (.arr fs) => fs.filterMap refOf
  | _ => []

def paintRefs2 (v : Option Json) : List String :=
  match v with
  | some (.arr fs) => fs.filterMap refOf2
  | _ => []

mutual
/-- Every `imageRef` of a `fills` or `backgrounds` list with type `IMAGE`,
anywhere in the JSON value (the scope of `find_image_references_and_nodes`,
which does not scan legacy `background`). -/
def specRefsJson (j : Json) : List String :=
  match j with
  | .obj fields =>
    paintRefs (lookupA fields "fills") ++ paintRefs (lookupA fields "backgrounds")
      ++ specRefsFields fields
  | .arr xs => specRefsList xs
  | _ => []
def specRefsList (l : List Json) : List String :=
  match l with
  | [] => []
  | x :: rest => specRefsJson x ++ specRefsList rest
def specRefsFields (l : List (String × Json)) : List String :=
  match l with
  | [] => []
  | p :: rest => specRefsJson p.2 ++ specRefsFields rest
end


mutual
/-- The nearest containing node ids recorded by
`find_image_references_and_nodes`: an object whose `fills` or
`backgrounds` list holds a matching entry contributes the innermost
colon-containing `id` on its path. -/
def specNodesJson (j : Json) (cur : Option String) : List String :=
  match j with
  | .obj fields =>
    let cur2 := match lookupA fields "id" with
      | some (.str s) => if s.data.contains ':' then some s else cur
      | _ => cur
    (if !(paintRefs (lookupA fields "fills")).isEmpty
        || !(paintRefs (lookupA fields "backgrounds")).isEmpty then
      match cur2 with
      | some n => [n]
      | none => []
    else []) ++ specNodesFields fields cur2
  | .arr xs => specNodesList xs cur
  | _ => []
def specNodesList (l : List Json) (cur : Option String) : List String :=
  match l with
  | [] => []
  | x :: rest => specNodesJson x cur ++ specNodesList rest cur
def specNodesFields (l : List (String × Json)) (cur : Option String) : List String :=
  match l with
  | [] => []
  | p :: rest => specNodesJson p.2 cur ++ specNodesFields rest cur
end


mutual
/-- Every `imageRef` of a `fills`, `backgrounds` or legacy `background`
list with type `IMAGE` and a truthy reference, over the `children` tree
(the scope of `_extract_image_references`). -/
def specRefsNode (j : Json) : List String :=
  match j with
  | .obj fields =>
    paintRefs2 (lookupA fields "fills") ++ paintRefs2 (lookupA fields "backgrounds")
      ++ paintRefs2 (lookupA fields "background") ++ specRefsNodeFields fields
  | _ => []
def specRefsNodeFields (l : List (String × Json)) : List String :=
  match l with
  | [] => []
  | (k, v) :: rest =>
    (if k == "children" then
      match v with
      | .arr cs => specRefsNodeList cs
      | _ => []
    else []) ++ specRefsNodeFields rest
def specRefsNodeList (l : List Json) : List String :=
  match l with
  | [] => []
  | x :: rest => specRefsNode x ++ specRefsNodeList rest
end


/-! ### Concrete fixtures used for counterexamples and witnesses -/

def vecNode (i : String) : PNode :=
  .mk (some i) (some "VECTOR") (some ("v" ++ i)) (some [.fdict (some "SOLID")]) none none none

def groupNode (i : String) (cs : List PNode) : PNode :=
  .mk (some i) (some "GROUP") (some ("g" ++ i)) none none (some cs) none

def pageNode (cs : List PNode) : PNode :=
  .mk (some "0:1") (some "CANVAS") (some "Page 1") none none (some cs) none

def fdNested : FigmaData :=
  { document := some (.mk (some "0:0") (some "DOCUMENT") (some "Doc") none none
      (some [pageNode [groupNode "1:1" [groupNode "1:2" [vecNode "1:3"]]]]) none) }

def fdMix : FigmaData :=
  { document := some (.mk (some "0:0") (some "DOCUMENT") (some "Doc") none none
      (some [pageNode [groupNode "10:1" [vecNode "10:2",
                          .mk (some "10:3") (some "TEXT") (some "T") none none none none,
                          .mk (some "10:4") (some "RECTANGLE") (some "R") none none none none],
                       vecNode "20:1",
                       .mk (some "30:1") (some "FRAME") (some "F") none none
                          (some [vecNode "30:2"]) none]]) none) }

def bgOnlyDoc : Json :=
  .obj [("document", .obj [("id", .str "1:1"),
    ("background", .arr [.obj [("type", .str "IMAGE"), ("imageRef", .str "bgref")]])])]

def fillEx : Json := .obj [("id", .str "2:1"),
  ("fills", .arr [.obj [("type", .str "IMAGE"), ("imageRef", .str "r1")]]),
  ("children", .arr [.obj [("id", .str "2:2"),
    ("fills", .arr [.obj [("type", .str "IMAGE"), ("imageRef", .str "r1")]])]])]

/-- Helper for C8: replace the `fills` entry of a node. -/
def setFills (n : PNode) (f : Option (List Fill)) : PNode :=
  match n with
  | .mk i t nm _ m ch b => .mk i t nm f m ch b

/-! ### Mutual induction over the nested node tree -/

theorem sizeOf_childrenD (n : PNode) : sizeOf n.childrenD < sizeOf n := by
  cases n with
  | mk a b c d e ch f => cases ch <;> simp [PNode.childrenD] <;> omega

/-- Simultaneous induction for a node property and a node-list property,
matching the recursion pattern shared by every traversal in this file. -/
theorem pnode_mutual_ind (P : PNode → Prop) (Q : List PNode → Prop)
    (h1 : ∀ n : PNode, Q n.childrenD → P n)
    (h2 : Q [])
    (h3 : ∀ (c : PNode) (cs : List PNode), P c → Q cs → Q (c :: cs)) :
    (∀ n : PNode, P n) ∧ (∀ l : List PNode, Q l) := by
  have key : ∀ k : Nat, (∀ n : PNode, sizeOf n ≤ k → P n) ∧
      (∀ l : List PNode, sizeOf l ≤ k → Q l) := by
    intro k
    induction k using Nat.strong_induction_on with
    | _ k ih =>
      constructor
      · intro n hn
        apply h1
        have hlt : sizeOf n.childrenD < k := Nat.lt_of_lt_of_le (sizeOf_childrenD n) hn
        exact (ih _ hlt).2 _ (Nat.le_refl _)
      · intro l hl
        match l with
        | [] => exact h2
        | c :: cs =>
          have hx : sizeOf (c :: cs) = 1 + sizeOf c + sizeOf cs := by simp
          have hc : sizeOf c < k := by omega
          have hcs : sizeOf cs < k := by omega
          exact h3 c cs ((ih _ hc).1 _ (Nat.le_refl _)) ((ih _ hcs).2 _ (Nat.le_refl _))
  exact ⟨fun n => (key (sizeOf n)).1 n (Nat.le_refl _),
         fun l => (key (sizeOf l)).2 l (Nat.le_refl _)⟩

/-! ### Association-list (Python dict) lemmas -/

theorem lookupA_eq_none_iff {α : Type} (d : List (String × α)) (k : String) :
    lookupA d k = none ↔ k ∉ d.map Prod.fst := by
  induction d with
  | nil => simp [lookupA]
  | cons p rest ih =>
    by_cases h : p.1 = k
    · simp [lookupA, h]
    · simp only [lookupA]
      rw [if_neg (by simp [h]), ih]
      simp only [List.map_cons, List.mem_cons]
      constructor
      · rintro hn (he | he)
        · exact h he.symm
        · exact hn he
      · exact fun hn hm => hn (Or.inr hm)

theorem lookupA_mem {α : Type} {d : List (String × α)} {k : String} {v : α}
    (h : lookupA d k = some v) : (k, v) ∈ d := by
  induction d with
  | nil => simp [lookupA] at h
  | cons p rest ih =>
    by_cases hb : p.1 = k
    · subst hb
      simp [lookupA] at h
      subst h
      exact List.mem_cons_self _ _
    · simp [lookupA, hb] at h
      exact List.mem_cons_of_mem _ (ih h)

theorem keys_dictInsert {α : Type} (d : List (String × α)) (k : String) (v : α) :
    (dictInsert d k v).map Prod.fst =
      if k ∈ d.map Prod.fst then d.map Prod.fst else d.map Prod.fst ++ [k] := by
  induction d with
  | nil => simp [dictInsert]
  | cons p rest ih =>
    by_cases hp : p.1 = k
    · simp [dictInsert, hp]
    · have hne : ¬ k = p.1 := fun he => hp he.symm
      by_cases hm : k ∈ rest.map Prod.fst
      · simp [dictInsert, hp, ih, hm, hne]
      · simp [dictInsert, hp, ih, hm, hne]

theorem mem_keys_dictInsert {α : Type} (d : List (String × α)) (k : String) (v : α) (k' : String) :
    k' ∈ (dictInsert d k v).map Prod.fst ↔ k' ∈ d.map Prod.fst ∨ k' = k := by
  rw [keys_dictInsert]
  by_cases h : k ∈ d.map Prod.fst
  · simp only [if_pos h]
    constructor
    · exact Or.inl
    · rintro (hk | rfl)
      · exact hk
      · exact h
  · simp [if_neg h]

theorem keys_dictInsert_nodup {α : Type} {d : List (String × α)} (k : String) (v : α)
    (h : (d.map Prod.fst).Nodup) : ((dictInsert d k v).map Prod.fst).Nodup := by
  rw [keys_dictInsert]
  by_cases hm : k ∈ d.map Prod.fst
  · simpa [hm] using h
  · simp only [if_neg hm]
    refine List.Nodup.append h (List.nodup_singleton k) ?_
    intro a ha hk
    rw [List.mem_singleton] at hk
    subst hk
    exact hm ha

theorem lookupA_dictInsert {α : Type} (d : List (String × α)) (k : String) (v : α) (k' : String) :
    lookupA (dictInsert d k v) k' = if k = k' then some v else lookupA d k' := by
  induction d with
  | nil =>
    simp only [dictInsert, lookupA]
    by_cases h : k = k'
    · simp [h]
    · simp [h]
  | cons p rest ih =>
    simp only [dictInsert]
    by_cases hp : p.1 = k
    · rw [if_pos (by simp [hp])]
      by_cases h : k = k'
      · subst h
        simp [lookupA]
      · have hp' : ¬ p.1 = k' := fun he => h (hp.symm.trans he)
        simp [lookupA, h, hp']
    · rw [if_neg (by simp [hp])]
      simp only [lookupA]
      by_cases hq : p.1 = k'
      · have h : ¬ k = k' := fun he => hp (hq.trans he.symm)
        simp [hq, h]
      · have e1 : (p.1 == k') = false := by simp [hq]
        simp [e1, ih]

theorem mem_dictInsert {α : Type} {d : List (String × α)} {k : String} {v : α} {x : String × α}
    (h : x ∈ dictInsert d k v) : x ∈ d ∨ x = (k, v) := by
  induction d with
  | nil =>
    rw [show dictInsert ([] : List (String × α)) k v = [(k, v)] from rfl] at h
    exact Or.inr (List.mem_singleton.mp h)
  | cons p rest ih =>
    by_cases hp : p.1 = k
    · rw [show dictInsert (p :: rest) k v = (k, v) :: rest from by
        simp [dictInsert, hp]] at h
      rcases List.mem_cons.mp h with he | hr
      · exact Or.inr he
      · exact Or.inl (List.mem_cons_of_mem _ hr)
    · rw [show dictInsert (p :: rest) k v = p :: dictInsert rest k v from by
        simp [dictInsert, hp]] at h
      rcases List.mem_cons.mp h with he | hr
      · left
        rw [he]
        exact List.mem_cons_self _ _
      · rcases ih hr with h1 | h1
        · exact Or.inl (List.mem_cons_of_mem _ h1)
        · exact Or.inr h1

theorem insertAll_append {α : Type} (d : List (String × α)) (l₁ l₂ : List (String × α)) :
    insertAll d (l₁ ++ l₂) = insertAll (insertAll d l₁) l₂ := by
  simp [insertAll, List.foldl_append]

theorem mem_keys_insertAll {α : Type} (d l : List (String × α)) (k : String) :
    k ∈ (insertAll d l).map Prod.fst ↔ k ∈ d.map Prod.fst ∨ k ∈ l.map Prod.fst := by
  induction l generalizing d with
  | nil => simp [insertAll]
  | cons p rest ih =>
    show k ∈ (insertAll (dictInsert d p.1 p.2) rest).map Prod.fst ↔ _
    rw [ih]
    rw [mem_keys_dictInsert]
    simp only [List.map_cons, List.mem_cons]
    tauto

theorem keys_insertAll_nodup {α : Type} {d : List (String × α)} (l : List (String × α))
    (h : (d.map Prod.fst).Nodup) : ((insertAll d l).map Prod.fst).Nodup := by
  induction l generalizing d with
  | nil => simpa [insertAll]
  | cons p rest ih =>
    exact ih (keys_dictInsert_nodup p.1 p.2 h)

theorem mem_insertAll {α : Type} {d l : List (String × α)} {x : String × α}
    (h : x ∈ insertAll d l) : x ∈ d ∨ x ∈ l := by
  induction l generalizing d with
  | nil => exact Or.inl (by simpa [insertAll] using h)
  | cons p rest ih =>
    have h2 : x ∈ insertAll (dictInsert d p.1 p.2) rest := h
    rcases ih h2 with hd | hr
    · rcases mem_dictInsert hd with h1 | h1
      · exact Or.inl h1
      · right
        subst h1
        exact List.mem_cons_self _ _
    · exact Or.inr (List.mem_cons_of_mem _ hr)

theorem lookupA_insertAll_not_mem {α : Type} {l : List (String × α)} (d : List (String × α))
    {k : String} (h : k ∉ l.map Prod.fst) :
    lookupA (insertAll d l) k = lookupA d k := by
  induction l generalizing d with
  | nil => simp [insertAll]
  | cons p rest ih =>
    have hk : p.1 ≠ k := by
      intro he
      exact h (by simp [he])
    have hr : k ∉ rest.map Prod.fst := fun hm => h (by simp [hm])
    show lookupA (insertAll (dictInsert d p.1 p.2) rest) k = _
    rw [ih _ hr, lookupA_dictInsert, if_neg hk]

theorem lookupA_insertAll_mem_nodup {α : Type} {l : List (String × α)} (d : List (String × α))
    {k : String} {v : α} (hn : (l.map Prod.fst).Nodup) (hm : (k, v) ∈ l) :
    lookupA (insertAll d l) k = some v := by
  induction l generalizing d with
  | nil => simp at hm
  | cons p rest ih =>
    rw [List.map_cons] at hn
    have hn2 := List.nodup_cons.mp hn
    rcases List.mem_cons.mp hm with he | hr
    · subst he
      show lookupA (insertAll (dictInsert d k v) rest) k = some v
      rw [lookupA_insertAll_not_mem _ hn2.1, lookupA_dictInsert, if_pos rfl]
    · exact ih (dictInsert d p.1 p.2) hn2.2 hr

theorem exists_lookupA_insertAll {α : Type} {l : List (String × α)} (d : List (String × α))
    {k : String} (h : k ∈ l.map Prod.fst) :
    ∃ v, (k, v) ∈ l ∧ lookupA (insertAll d l) k = some v := by
  induction l generalizing d with
  | nil => simp at h
  | cons p rest ih =>
    by_cases hr : k ∈ rest.map Prod.fst
    · rcases ih (dictInsert d p.1 p.2) hr with ⟨v, hv, hl⟩
      exact ⟨v, List.mem_cons_of_mem _ hv, hl⟩
    · have hk : k = p.1 := by
        rw [List.map_cons] at h
        rcases List.mem_cons.mp h with he | he
        · exact he
        · exact absurd he hr
      refine ⟨p.2, ?_, ?_⟩
      · subst hk
        exact List.mem_cons_self _ _
      · show lookupA (insertAll (dictInsert d p.1 p.2) rest) k = some p.2
        rw [lookupA_insertAll_not_mem _ hr, lookupA_dictInsert, if_pos hk.symm]

theorem keys_insertAll_of_nodup {α : Type} {d l : List (String × α)}
    (h : (d.map Prod.fst ++ l.map Prod.fst).Nodup) :
    (insertAll d l).map Prod.fst = d.map Prod.fst ++ l.map Prod.fst := by
  induction l generalizing d with
  | nil => simp [insertAll]
  | cons p rest ih =>
    have hpd : p.1 ∉ d.map Prod.fst := by
      intro hm
      have := List.disjoint_of_nodup_append h hm
      simp at this
    have hkeys : (dictInsert d p.1 p.2).map Prod.fst = d.map Prod.fst ++ [p.1] := by
      rw [keys_dictInsert, if_neg hpd]
    show (insertAll (dictInsert d p.1 p.2) rest).map Prod.fst = _
    rw [ih (by
      rw [hkeys]
      have : d.map Prod.fst ++ [p.1] ++ rest.map Prod.fst
          = d.map Prod.fst ++ (p.1 :: rest.map Prod.fst) := by simp
      rw [this]
      simpa using h), hkeys]
    simp

/-! ### Characterization of the group-content scan -/

theorem examineStep_vc (gs : GroupScan) (c : PNode) :
    (examineStep gs c).vectorChildren = gs.vectorChildren ++ stepVec c := by
  cases h : (c.typeD == "VECTOR" && hasSolidFills c && !c.maskD) with
  | true => simp [examineStep, stepVec, includeCond, mkVecChild, h]
  | false => simp [examineStep, stepVec, includeCond, h, apply_ite GroupScan.vectorChildren]

theorem examineStep_nv (gs : GroupScan) (c : PNode) :
    (examineStep gs c).nonVectorChildren = gs.nonVectorChildren ++ stepExcl c := by
  cases h : (c.typeD == "VECTOR" && hasSolidFills c && !c.maskD) with
  | true => simp [examineStep, stepExcl, includeCond, h]
  | false =>
    simp [examineStep, stepExcl, exclReason, includeCond, h,
      apply_ite GroupScan.nonVectorChildren,
      apply_ite (fun r : String => gs.nonVectorChildren ++ [r])]

theorem examine_char :
    (∀ c : PNode, ∀ gs depth,
      (examineChild gs c depth).vectorChildren = gs.vectorChildren ++ vecChildList c depth ∧
      (examineChild gs c depth).nonVectorChildren = gs.nonVectorChildren ++ exclList c depth) ∧
    (∀ l : List PNode, ∀ gs depth,
      (examineChildren gs l depth).vectorChildren = gs.vectorChildren ++ vecChildListL l depth ∧
      (examineChildren gs l depth).nonVectorChildren = gs.nonVectorChildren ++ exclListL l depth) := by
  apply pnode_mutual_ind
  · intro n hQ gs depth
    by_cases hd : depth > 5
    · cases n with
      | mk i t nm f m ch b =>
        cases ch <;> simp [examineChild, vecChildList, exclList, hd]
    · cases n with
      | mk i t nm f m ch b =>
        cases ch with
        | some l =>
          simp only [PNode.childrenD] at hQ
          have e1 : examineChild gs (.mk i t nm f m (some l) b) depth
              = examineChildren (examineStep gs (.mk i t nm f m (some l) b)) l (depth + 1) := by
            simp [examineChild, hd]
          have e2 : vecChildList (.mk i t nm f m (some l) b) depth
              = stepVec (.mk i t nm f m (some l) b) ++ vecChildListL l (depth + 1) := by
            simp [vecChildList, hd]
          have e3 : exclList (.mk i t nm f m (some l) b) depth
              = stepExcl (.mk i t nm f m (some l) b) ++ exclListL l (depth + 1) := by
            simp [exclList, hd]
          constructor
          · rw [e1, (hQ _ _).1, examineStep_vc, e2, List.append_assoc]
          · rw [e1, (hQ _ _).2, examineStep_nv, e3, List.append_assoc]
        | none =>
          have e1 : examineChild gs (.mk i t nm f m none b) depth
              = examineStep gs (.mk i t nm f m none b) := by
            simp [examineChild, hd]
          have e2 : vecChildList (.mk i t nm f m none b) depth
              = stepVec (.mk i t nm f m none b) := by
            simp [vecChildList, hd]
          have e3 : exclList (.mk i t nm f m none b) depth
              = stepExcl (.mk i t nm f m none b) := by
            simp [exclList, hd]
          exact ⟨by rw [e1, examineStep_vc, e2], by rw [e1, examineStep_nv, e3]⟩
  · intro gs depth
    simp [examineChildren, vecChildListL, exclListL]
  · intro c cs Pc Qcs gs depth
    have e1 : examineChildren gs (c :: cs) depth
        = examineChildren (examineChild gs c depth) cs depth := by
      simp [examineChildren]
    constructor
    · rw [e1, (Qcs _ _).1, (Pc _ _).1]
      simp [vecChildListL, List.append_assoc]
    · rw [e1, (Qcs _ _).2, (Pc _ _).2]
      simp [exclListL, List.append_assoc]

theorem examineChild_vc (gs : GroupScan) (c : PNode) (depth : Nat) :
    (examineChild gs c depth).vectorChildren = gs.vectorChildren ++ vecChildList c depth :=
  (examine_char.1 c gs depth).1

theorem examineChildren_vc (gs : GroupScan) (l : List PNode) (depth : Nat) :
    (examineChildren gs l depth).vectorChildren = gs.vectorChildren ++ vecChildListL l depth :=
  (examine_char.2 l gs depth).1

theorem examineChild_nv (gs : GroupScan) (c : PNode) (depth : Nat) :
    (examineChild gs c depth).nonVectorChildren = gs.nonVectorChildren ++ exclList c depth :=
  (examine_char.1 c gs depth).2

theorem examineChildren_nv (gs : GroupScan) (l : List PNode) (depth : Nat) :
    (examineChildren gs l depth).nonVectorChildren = gs.nonVectorChildren ++ exclListL l depth :=
  (examine_char.2 l gs depth).2

theorem analyzeGroupContent_vc (stats : Stats) (g : PNode) :
    (analyzeGroupContent stats g).vectorChildren = vecChildListL g.childrenD 0 := by
  rw [analyzeGroupContent, examineChildren_vc]
  rfl

/-! ### Characterization of the analysis pass -/

theorem groupFold_ivc (l : List VecChild) (s : AState) (cp gid gname : String) :
    (l.foldl (groupInsertStep cp gid gname) s).ivc
    = insertAll s.ivc (l.map fun vc => (vc.vid, mkChildRec vc cp gid gname)) := by
  induction l generalizing s with
  | nil => simp [insertAll]
  | cons vc rest ih =>
    simp only [List.foldl_cons, List.map_cons]
    rw [ih]
    simp [insertAll, groupInsertStep]

theorem groupFold_sv (l : List VecChild) (s : AState) (cp gid gname : String) :
    (l.foldl (groupInsertStep cp gid gname) s).sv = s.sv := by
  induction l generalizing s with
  | nil => simp
  | cons vc rest ih =>
    simp only [List.foldl_cons]
    rw [ih]
    simp [groupInsertStep]

theorem analyze_char :
    (∀ n : PNode, ∀ st path pg,
      (analyzeNode st n path pg).ivc = insertAll st.ivc (ivcPairs n path) ∧
      (analyzeNode st n path pg).sv = insertAll st.sv (svPairs n path pg)) ∧
    (∀ l : List PNode, ∀ st path pg,
      (analyzeChildren st l path pg).ivc = insertAll st.ivc (ivcPairsL l path) ∧
      (analyzeChildren st l path pg).sv = insertAll st.sv (svPairsL l path pg)) := by
  apply pnode_mutual_ind
  · intro n hQ st path pg
    cases n with
    | mk i t nm f m ch b =>
      cases ch with
      | some children =>
        simp only [PNode.childrenD] at hQ
        by_cases hG : ((PNode.mk i t nm f m (some children) b).typeD == "GROUP") = true
        · constructor
          · simp only [analyzeNode, ivcPairs, hG, if_true, apply_ite AState.ivc]
            rw [groupFold_ivc]
            simp only [analyzeGroupContent_vc, PNode.childrenD]
            by_cases hE : (vecChildListL children 0).isEmpty = true
            · have he0 : vecChildListL children 0 = [] := List.isEmpty_iff.mp hE
              simp [hE, he0, insertAll]
            · simp [hE]
          · simp only [analyzeNode, svPairs, hG, if_true, apply_ite AState.sv]
            rw [groupFold_sv]
            simp [insertAll]
        · constructor
          · simp only [analyzeNode, ivcPairs, hG, Bool.false_eq_true, if_false]
            rw [(hQ _ _ _).1]
            simp [apply_ite AState.ivc]
          · simp only [analyzeNode, svPairs, hG, Bool.false_eq_true, if_false]
            rw [(hQ _ _ _).2]
            by_cases hP : (isPureVector (PNode.mk i t nm f m (some children) b)
                && pg.isNone) = true
            · simp [hP, apply_ite AState.sv, insertAll]
            · simp [hP, apply_ite AState.sv, insertAll]
      | none =>
        by_cases hG : ((PNode.mk i t nm f m none b).typeD == "GROUP") = true
        · constructor
          · simp only [analyzeNode, ivcPairs, hG, if_true, apply_ite AState.ivc]
            rw [groupFold_ivc]
            simp only [analyzeGroupContent_vc, PNode.childrenD]
            simp [vecChildListL, insertAll]
          · simp only [analyzeNode, svPairs, hG, if_true, apply_ite AState.sv]
            rw [groupFold_sv]
            simp [insertAll]
        · constructor
          · simp only [analyzeNode, ivcPairs, hG, Bool.false_eq_true, if_false]
            simp [apply_ite AState.ivc, insertAll]
          · simp only [analyzeNode, svPairs, hG, Bool.false_eq_true, if_false]
            by_cases hP : (isPureVector (PNode.mk i t nm f m none b) && pg.isNone) = true
            · simp [hP, apply_ite AState.sv, insertAll]
            · simp [hP, apply_ite AState.sv, insertAll]
  · intro st path pg
    simp [analyzeChildren, ivcPairsL, svPairsL, insertAll]
  · intro c cs Pc Qcs st path pg
    have e1 : analyzeChildren st (c :: cs) path pg
        = analyzeChildren (analyzeNode st c path pg) cs path pg := by
      simp [analyzeChildren]
    constructor
    · rw [e1, (Qcs _ _ _).1, (Pc _ _ _).1]
      simp only [ivcPairsL]
      rw [insertAll_append]
    · rw [e1, (Qcs _ _ _).2, (Pc _ _ _).2]
      simp only [svPairsL]
      rw [insertAll_append]

theorem analyzeNode_ivc (st : AState) (n : PNode) (path : String) (pg : Option GroupRef) :
    (analyzeNode st n path pg).ivc = insertAll st.ivc (ivcPairs n path) :=
  (analyze_char.1 n st path pg).1

theorem analyzeNode_sv (st : AState) (n : PNode) (path : String) (pg : Option GroupRef) :
    (analyzeNode st n path pg).sv = insertAll st.sv (svPairs n path pg) :=
  (analyze_char.1 n st path pg).2

theorem analyzeChildren_ivc (st : AState) (l : List PNode) (path : String) (pg : Option GroupRef) :
    (analyzeChildren st l path pg).ivc = insertAll st.ivc (ivcPairsL l path) :=
  (analyze_char.2 l st path pg).1

theorem analyzeChildren_sv (st : AState) (l : List PNode) (path : String) (pg : Option GroupRef) :
    (analyzeChildren st l path pg).sv = insertAll st.sv (svPairsL l path pg) :=
  (analyze_char.2 l st path pg).2

theorem runAnalysis_ivc (fd : FigmaData) :
    (runAnalysis fd).ivc = insertAll [] (ivcPairsL (docChildren fd) "") := by
  simp only [runAnalysis]
  rw [analyzeChildren_ivc]
  rfl

theorem runAnalysis_sv (fd : FigmaData) :
    (runAnalysis fd).sv = insertAll [] (svPairsL (docChildren fd) "" none) := by
  simp only [runAnalysis]
  rw [analyzeChildren_sv]
  rfl

theorem preprocess_downloads (t : String) (fd : FigmaData) :
    (preprocessFigmaJson t fd).svgDownloads = insertAll
      (insertAll [] ((runAnalysis fd).ivc.map fun p => (p.1, childToDownload p.1 p.2)))
      ((runAnalysis fd).sv.map fun p => (p.1, svToDownload p.1 p.2)) := rfl

theorem preprocess_mapping (t : String) (fd : FigmaData) :
    (preprocessFigmaJson t fd).svgMapping = insertAll []
      ((preprocessFigmaJson t fd).svgDownloads.map fun p =>
        (pyReplaceColon p.1,
         { filename := p.2.filename, isGroup := false,
           componentName := p.2.componentName : MappingRec })) := rfl

/-! ### Multiset bound: every recorded id is drawn from a distinct node
occurrence of the tree -/

theorem vec_ids_le :
    (∀ c : PNode, ∀ d : Nat,
      (((vecChildList c d).map VecChild.vid : List String) : Multiset String)
        ≤ ((subtreeIds c : List String) : Multiset String)) ∧
    (∀ l : List PNode, ∀ d : Nat,
      (((vecChildListL l d).map VecChild.vid : List String) : Multiset String)
        ≤ ((subtreeIdsL l : List String) : Multiset String)) := by
  apply pnode_mutual_ind
  · intro n hQ d
    cases n with
    | mk i t nm f m ch b =>
      by_cases hd : d > 5
      · cases ch <;> simp [vecChildList, hd, Multiset.zero_le]
      · have hstep : (((stepVec (PNode.mk i t nm f m ch b)).map VecChild.vid : List String) :
            Multiset String) ≤ {(PNode.mk i t nm f m ch b).idD} := by
          by_cases hi : includeCond (PNode.mk i t nm f m ch b) = true
          · simp [stepVec, hi, mkVecChild]
          · simp [stepVec, hi, Multiset.zero_le]
        cases ch with
        | some l =>
          simp only [PNode.childrenD] at hQ
          have e1 : vecChildList (PNode.mk i t nm f m (some l) b) d
              = stepVec (PNode.mk i t nm f m (some l) b) ++ vecChildListL l (d + 1) := by
            simp [vecChildList, hd]
          have e2 : subtreeIds (PNode.mk i t nm f m (some l) b)
              = (PNode.mk i t nm f m (some l) b).idD :: subtreeIdsL l := by
            simp [subtreeIds]
          rw [e1, e2, List.map_append, ← Multiset.coe_add, ← Multiset.cons_coe,
            ← Multiset.singleton_add]
          exact add_le_add hstep (hQ (d + 1))
        | none =>
          have e1 : vecChildList (PNode.mk i t nm f m none b) d
              = stepVec (PNode.mk i t nm f m none b) := by
            simp [vecChildList, hd]
          have e2 : subtreeIds (PNode.mk i t nm f m none b)
              = [(PNode.mk i t nm f m none b).idD] := by
            simp [subtreeIds]
          rw [e1, e2]
          simpa using hstep
  · intro d
    simp [vecChildListL, subtreeIdsL]
  · intro c cs Pc Qcs d
    have e1 : vecChildListL (c :: cs) d = vecChildList c d ++ vecChildListL cs d := by
      simp [vecChildListL]
    have e2 : subtreeIdsL (c :: cs) = subtreeIds c ++ subtreeIdsL cs := by
      simp [subtreeIdsL]
    rw [e1, e2, List.map_append, ← Multiset.coe_add, ← Multiset.coe_add]
    exact add_le_add (Pc d) (Qcs d)

theorem pairs_ids_le :
    (∀ n : PNode, ∀ path pg,
      (((ivcPairs n path).map Prod.fst : List String) : Multiset String)
        + (((svPairs n path pg).map Prod.fst : List String) : Multiset String)
        ≤ ((subtreeIds n : List String) : Multiset String)) ∧
    (∀ l : List PNode, ∀ path pg,
      (((ivcPairsL l path).map Prod.fst : List String) : Multiset String)
        + (((svPairsL l path pg).map Prod.fst : List String) : Multiset String)
        ≤ ((subtreeIdsL l : List String) : Multiset String)) := by
  apply pnode_mutual_ind
  · intro n hQ path pg
    cases n with
    | mk i t nm f m ch b =>
      by_cases hG : ((PNode.mk i t nm f m ch b).typeD == "GROUP") = true
      · have hivc : (ivcPairs (PNode.mk i t nm f m ch b) path).map Prod.fst
            = (vecChildListL (PNode.mk i t nm f m ch b).childrenD 0).map VecChild.vid := by
          cases ch <;>
            simp [ivcPairs, hG, List.map_map, Function.comp]
        have hsv : svPairs (PNode.mk i t nm f m ch b) path pg = [] := by
          cases ch <;> simp [svPairs, hG]
        rw [hivc, hsv]
        simp only [List.map_nil]
        rw [show ((([] : List String) : Multiset String)) = 0 from rfl, add_zero]
        calc (((vecChildListL (PNode.mk i t nm f m ch b).childrenD 0).map VecChild.vid :
                List String) : Multiset String)
            ≤ ((subtreeIdsL (PNode.mk i t nm f m ch b).childrenD : List String) :
                Multiset String) := vec_ids_le.2 _ 0
          _ ≤ ((subtreeIds (PNode.mk i t nm f m ch b) : List String) : Multiset String) := by
              cases ch with
              | some l =>
                simp only [PNode.childrenD, subtreeIds]
                rw [← Multiset.cons_coe]
                exact Multiset.le_cons_self _ _
              | none =>
                simp [PNode.childrenD, subtreeIdsL, subtreeIds, Multiset.zero_le]
      · have hhead : ∀ nch,
            (((if isPureVector (PNode.mk i t nm f m nch b) && pg.isNone then
                [((PNode.mk i t nm f m nch b).idD,
                  { sid := (PNode.mk i t nm f m nch b).idD,
                    sname := (PNode.mk i t nm f m nch b).nameOr "Unnamed",
                    stype := (PNode.mk i t nm f m nch b).typeD,
                    spath := if path == "" then (PNode.mk i t nm f m nch b).nameOr "Unnamed"
                      else path ++ "/" ++ (PNode.mk i t nm f m nch b).nameOr "Unnamed",
                    bounds := (PNode.mk i t nm f m nch b).bboxD,
                    extractionReason := "STANDALONE_VECTOR" : StandaloneRec })]
              else []).map Prod.fst : List String) : Multiset String)
              ≤ {(PNode.mk i t nm f m nch b).idD} := by
          intro nch
          by_cases hp : (isPureVector (PNode.mk i t nm f m nch b) && pg.isNone) = true
          · simp [hp]
          · simp [hp, Multiset.zero_le]
        cases ch with
        | some l =>
          simp only [PNode.childrenD] at hQ
          have e1 : ivcPairs (PNode.mk i t nm f m (some l) b) path
              = ivcPairsL l (if path == "" then (PNode.mk i t nm f m (some l) b).nameOr "Unnamed"
                  else path ++ "/" ++ (PNode.mk i t nm f m (some l) b).nameOr "Unnamed") := by
            simp [ivcPairs, hG]
          have e2 := hhead (some l)
          have e3 : subtreeIds (PNode.mk i t nm f m (some l) b)
              = (PNode.mk i t nm f m (some l) b).idD :: subtreeIdsL l := by
            simp [subtreeIds]
          rw [e1, e3]
          simp only [svPairs, hG, Bool.false_eq_true, if_false, List.map_append,
            ← Multiset.coe_add]
          rw [← Multiset.cons_coe, ← Multiset.singleton_add, add_left_comm]
          exact add_le_add e2 (hQ _ _)
        | none =>
          have e1 : ivcPairs (PNode.mk i t nm f m none b) path = [] := by
            simp [ivcPairs, hG]
          have e3 : subtreeIds (PNode.mk i t nm f m none b)
              = [(PNode.mk i t nm f m none b).idD] := by
            simp [subtreeIds]
          rw [e1, e3]
          simp only [svPairs, hG, Bool.false_eq_true, if_false, List.map_nil]
          rw [show ((([] : List String) : Multiset String)) = 0 from rfl, zero_add]
          simpa using hhead none
  · intro path pg
    simp [ivcPairsL, svPairsL, subtreeIdsL]
  · intro c cs Pc Qcs path pg
    have e1 : ivcPairsL (c :: cs) path = ivcPairs c path ++ ivcPairsL cs path := by
      simp [ivcPairsL]
    have e2 : svPairsL (c :: cs) path pg = svPairs c path pg ++ svPairsL cs path pg := by
      simp [svPairsL]
    have e3 : subtreeIdsL (c :: cs) = subtreeIds c ++ subtreeIdsL cs := by
      simp [subtreeIdsL]
    rw [e1, e2, e3, List.map_append, List.map_append, ← Multiset.coe_add, ← Multiset.coe_add,
      ← Multiset.coe_add, add_add_add_comm]
    exact add_le_add (Pc _ _) (Qcs _ _)

/-! ### Key partition of one run -/

theorem runAnalysis_partition (fd : FigmaData) (H : (docIds fd).Nodup) :
    ((runAnalysis fd).ivc.map Prod.fst).Nodup ∧
    ((runAnalysis fd).sv.map Prod.fst).Nodup ∧
    ((runAnalysis fd).ivc.map Prod.fst).Disjoint ((runAnalysis fd).sv.map Prod.fst) := by
  have hle := pairs_ids_le.2 (docChildren fd) "" none
  have hnd : Multiset.Nodup ((subtreeIdsL (docChildren fd) : List String) : Multiset String) :=
    Multiset.coe_nodup.mpr H
  have hadd := Multiset.nodup_of_le hle hnd
  rcases Multiset.nodup_add.mp hadd with ⟨h1, h2, h3⟩
  have h1' : ((ivcPairsL (docChildren fd) "").map Prod.fst).Nodup := Multiset.coe_nodup.mp h1
  have h2' : ((svPairsL (docChildren fd) "" none).map Prod.fst).Nodup := Multiset.coe_nodup.mp h2
  have h3' : ((ivcPairsL (docChildren fd) "").map Prod.fst).Disjoint
      ((svPairsL (docChildren fd) "" none).map Prod.fst) :=
    (Multiset.coe_disjoint _ _).mp h3
  have hkivc : (runAnalysis fd).ivc.map Prod.fst = (ivcPairsL (docChildren fd) "").map Prod.fst := by
    rw [runAnalysis_ivc]
    have := keys_insertAll_of_nodup (d := ([] : List (String × ChildRec)))
      (l := ivcPairsL (docChildren fd) "") (by simpa using h1')
    simpa using this
  have hksv : (runAnalysis fd).sv.map Prod.fst
      = (svPairsL (docChildren fd) "" none).map Prod.fst := by
    rw [runAnalysis_sv]
    have := keys_insertAll_of_nodup (d := ([] : List (String × StandaloneRec)))
      (l := svPairsL (docChildren fd) "" none) (by simpa using h2')
    simpa using this
  refine ⟨hkivc ▸ h1', hksv ▸ h2', ?_⟩
  rw [hkivc, hksv]
  exact h3'

theorem downloads_keys_nodup (t : String) (fd : FigmaData) :
    ((preprocessFigmaJson t fd).svgDownloads.map Prod.fst).Nodup := by
  rw [preprocess_downloads]
  exact keys_insertAll_nodup _ (keys_insertAll_nodup _ (by simp))

/-! ### Soundness: every recorded pair comes from a qualifying node -/

theorem includeCond_eq_isPure (n : PNode) : includeCond n = isPureVector n := by
  cases h1 : n.typeD == "VECTOR" <;> cases h2 : hasSolidFills n <;> cases h3 : n.maskD <;>
    simp [includeCond, isPureVector, h1, h2, h3, bne]

theorem vecChildList_sound :
    (∀ c : PNode, ∀ d vc, vc ∈ vecChildList c d →
       ∃ m, m ∈ subtreeNodes c ∧ includeCond m = true ∧ vc = mkVecChild m) ∧
    (∀ l : List PNode, ∀ d vc, vc ∈ vecChildListL l d →
       ∃ m, m ∈ subtreeNodesL l ∧ includeCond m = true ∧ vc = mkVecChild m) := by
  apply pnode_mutual_ind
  · intro n hQ d vc hm
    cases n with
    | mk i t nm f m ch b =>
      by_cases hd : d > 5
      · cases ch <;> simp [vecChildList, hd] at hm
      · have hstep : vc ∈ stepVec (PNode.mk i t nm f m ch b) →
            ∃ m', m' ∈ subtreeNodes (PNode.mk i t nm f m ch b) ∧
              includeCond m' = true ∧ vc = mkVecChild m' := by
          intro hs
          by_cases hi : includeCond (PNode.mk i t nm f m ch b) = true
          · refine ⟨PNode.mk i t nm f m ch b, ?_, hi, ?_⟩
            · cases ch <;> simp [subtreeNodes]
            · simpa [stepVec, hi] using hs
          · simp [stepVec, hi] at hs
        cases ch with
        | some l =>
          simp only [PNode.childrenD] at hQ
          rw [show vecChildList (PNode.mk i t nm f m (some l) b) d
            = stepVec (PNode.mk i t nm f m (some l) b) ++ vecChildListL l (d + 1)
            from by simp [vecChildList, hd]] at hm
          rcases List.mem_append.mp hm with hs | hr
          · exact hstep hs
          · rcases hQ (d + 1) vc hr with ⟨m', hm', hi', he'⟩
            exact ⟨m', by simp [subtreeNodes, List.mem_cons_of_mem, hm'], hi', he'⟩
        | none =>
          rw [show vecChildList (PNode.mk i t nm f m none b) d
            = stepVec (PNode.mk i t nm f m none b) from by simp [vecChildList, hd]] at hm
          exact hstep hm
  · intro d vc hm
    simp [vecChildListL] at hm
  · intro c cs Pc Qcs d vc hm
    rw [show vecChildListL (c :: cs) d = vecChildList c d ++ vecChildListL cs d
      from by simp [vecChildListL]] at hm
    rcases List.mem_append.mp hm with h1 | h1
    · rcases Pc d vc h1 with ⟨m', hm', hi', he'⟩
      refine ⟨m', ?_, hi', he'⟩
      rw [show subtreeNodesL (c :: cs) = subtreeNodes c ++ subtreeNodesL cs
        from by simp [subtreeNodesL]]
      exact List.mem_append.mpr (Or.inl hm')
    · rcases Qcs d vc h1 with ⟨m', hm', hi', he'⟩
      refine ⟨m', ?_, hi', he'⟩
      rw [show subtreeNodesL (c :: cs) = subtreeNodes c ++ subtreeNodesL cs
        from by simp [subtreeNodesL]]
      exact List.mem_append.mpr (Or.inr hm')

theorem pairs_sound :
    (∀ n : PNode, ∀ path pg,
      (∀ k r, (k, r) ∈ ivcPairs n path →
        ∃ m, m ∈ subtreeNodes n ∧ isPureVector m = true ∧ k = m.idD) ∧
      (∀ k s, (k, s) ∈ svPairs n path pg →
        (∃ m, m ∈ subtreeNodes n ∧ isPureVector m = true ∧ k = m.idD) ∧
        s.extractionReason = "STANDALONE_VECTOR")) ∧
    (∀ l : List PNode, ∀ path pg,
      (∀ k r, (k, r) ∈ ivcPairsL l path →
        ∃ m, m ∈ subtreeNodesL l ∧ isPureVector m = true ∧ k = m.idD) ∧
      (∀ k s, (k, s) ∈ svPairsL l path pg →
        (∃ m, m ∈ subtreeNodesL l ∧ isPureVector m = true ∧ k = m.idD) ∧
        s.extractionReason = "STANDALONE_VECTOR")) := by
  apply pnode_mutual_ind
  · intro n hQ path pg
    cases n with
    | mk i t nm f m ch b =>
      by_cases hG : ((PNode.mk i t nm f m ch b).typeD == "GROUP") = true
      · constructor
        · intro k r hm
          have hivc : ivcPairs (PNode.mk i t nm f m ch b) path
              = (vecChildListL (PNode.mk i t nm f m ch b).childrenD 0).map fun vc =>
                  (vc.vid, mkChildRec vc
                    (if path == "" then (PNode.mk i t nm f m ch b).nameOr "Unnamed"
                     else path ++ "/" ++ (PNode.mk i t nm f m ch b).nameOr "Unnamed")
                    (PNode.mk i t nm f m ch b).idD ((PNode.mk i t nm f m ch b).nameOr "Unnamed")) := by
            cases ch <;> simp [ivcPairs, hG]
          rw [hivc] at hm
          rcases List.mem_map.mp hm with ⟨vc, hvc, he⟩
          rcases vecChildList_sound.2 _ 0 vc hvc with ⟨m', hm', hi', he'⟩
          refine ⟨m', ?_, by rw [← includeCond_eq_isPure]; exact hi', ?_⟩
          · cases ch with
            | some l =>
              simp only [PNode.childrenD] at hm'
              simp [subtreeNodes, List.mem_cons_of_mem, hm']
            | none =>
              simp [PNode.childrenD, subtreeNodesL] at hm'
          · have : k = vc.vid := by
              have := congrArg Prod.fst he
              simpa using this.symm
            rw [this, he', mkVecChild]
        · intro k s hm
          have hsv : svPairs (PNode.mk i t nm f m ch b) path pg = [] := by
            cases ch <;> simp [svPairs, hG]
          rw [hsv] at hm
          simp at hm
      · constructor
        · intro k r hm
          cases ch with
          | some l =>
            simp only [PNode.childrenD] at hQ
            rw [show ivcPairs (PNode.mk i t nm f m (some l) b) path
              = ivcPairsL l (if path == "" then (PNode.mk i t nm f m (some l) b).nameOr "Unnamed"
                  else path ++ "/" ++ (PNode.mk i t nm f m (some l) b).nameOr "Unnamed")
              from by simp [ivcPairs, hG]] at hm
            rcases (hQ _ pg).1 k r hm with ⟨m', hm', hi', he'⟩
            exact ⟨m', by simp [subtreeNodes, List.mem_cons_of_mem, hm'], hi', he'⟩
          | none =>
            rw [show ivcPairs (PNode.mk i t nm f m none b) path = []
              from by simp [ivcPairs, hG]] at hm
            simp at hm
        · intro k s hm
          have hhead : (k, s) ∈ (if isPureVector (PNode.mk i t nm f m ch b) && pg.isNone then
                [((PNode.mk i t nm f m ch b).idD,
                  { sid := (PNode.mk i t nm f m ch b).idD,
                    sname := (PNode.mk i t nm f m ch b).nameOr "Unnamed",
                    stype := (PNode.mk i t nm f m ch b).typeD,
                    spath := if path == "" then (PNode.mk i t nm f m ch b).nameOr "Unnamed"
                      else path ++ "/" ++ (PNode.mk i t nm f m ch b).nameOr "Unnamed",
                    bounds := (PNode.mk i t nm f m ch b).bboxD,
                    extractionReason := "STANDALONE_VECTOR" : StandaloneRec })]
              else []) →
              (∃ m', m' ∈ subtreeNodes (PNode.mk i t nm f m ch b) ∧ isPureVector m' = true ∧
                k = m'.idD) ∧
              s.extractionReason = "STANDALONE_VECTOR" := by
            intro hs
            by_cases hp : (isPureVector (PNode.mk i t nm f m ch b) && pg.isNone) = true
            · simp only [hp, if_true, List.mem_singleton] at hs
              have hk := congrArg Prod.fst hs
              have hv := congrArg Prod.snd hs
              simp at hk hv
              have hp2 : isPureVector (PNode.mk i t nm f m ch b) = true ∧ pg.isNone = true := by
                simpa using hp
              constructor
              · refine ⟨PNode.mk i t nm f m ch b, ?_, hp2.1, hk⟩
                cases ch <;> simp [subtreeNodes]
              · rw [hv]
            · simp [hp] at hs
          cases ch with
          | some l =>
            simp only [PNode.childrenD] at hQ
            rw [show svPairs (PNode.mk i t nm f m (some l) b) path pg
              = (if isPureVector (PNode.mk i t nm f m (some l) b) && pg.isNone then
                  [((PNode.mk i t nm f m (some l) b).idD,
                    { sid := (PNode.mk i t nm f m (some l) b).idD,
                      sname := (PNode.mk i t nm f m (some l) b).nameOr "Unnamed",
                      stype := (PNode.mk i t nm f m (some l) b).typeD,
                      spath := if path == "" then (PNode.mk i t nm f m (some l) b).nameOr "Unnamed"
                        else path ++ "/" ++ (PNode.mk i t nm f m (some l) b).nameOr "Unnamed",
                      bounds := (PNode.mk i t nm f m (some l) b).bboxD,
                      extractionReason := "STANDALONE_VECTOR" : StandaloneRec })]
                else []) ++ svPairsL l
                  (if path == "" then (PNode.mk i t nm f m (some l) b).nameOr "Unnamed"
                   else path ++ "/" ++ (PNode.mk i t nm f m (some l) b).nameOr "Unnamed")
                  (if (PNode.mk i t nm f m (some l) b).typeD == "FRAME"
                      || (PNode.mk i t nm f m (some l) b).typeD == "COMPONENT"
                      || (PNode.mk i t nm f m (some l) b).typeD == "INSTANCE" then
                    some { gid := (PNode.mk i t nm f m (some l) b).idD,
                           gname := (PNode.mk i t nm f m (some l) b).nameOr "Unnamed" }
                  else pg)
              from by simp [svPairs, hG]] at hm
            rcases List.mem_append.mp hm with hs | hr
            · exact hhead hs
            · rcases (hQ _ _).2 k s hr with ⟨⟨m', hm', hi', he'⟩, hreason⟩
              exact ⟨⟨m', by simp [subtreeNodes, List.mem_cons_of_mem, hm'], hi', he'⟩, hreason⟩
          | none =>
            rw [show svPairs (PNode.mk i t nm f m none b) path pg
              = (if isPureVector (PNode.mk i t nm f m none b) && pg.isNone then
                  [((PNode.mk i t nm f m none b).idD,
                    { sid := (PNode.mk i t nm f m none b).idD,
                      sname := (PNode.mk i t nm f m none b).nameOr "Unnamed",
                      stype := (PNode.mk i t nm f m none b).typeD,
                      spath := if path == "" then (PNode.mk i t nm f m none b).nameOr "Unnamed"
                        else path ++ "/" ++ (PNode.mk i t nm f m none b).nameOr "Unnamed",
                      bounds := (PNode.mk i t nm f m none b).bboxD,
                      extractionReason := "STANDALONE_VECTOR" : StandaloneRec })]
                else [])
              from by simp [svPairs, hG]] at hm
            exact hhead hm
  · intro path pg
    constructor
    · intro k r hm
      simp [ivcPairsL] at hm
    · intro k s hm
      simp [svPairsL] at hm
  · intro c cs Pc Qcs path pg
    constructor
    · intro k r hm
      rw [show ivcPairsL (c :: cs) path = ivcPairs c path ++ ivcPairsL cs path
        from by simp [ivcPairsL]] at hm
      rw [show subtreeNodesL (c :: cs) = subtreeNodes c ++ subtreeNodesL cs
        from by simp [subtreeNodesL]]
      rcases List.mem_append.mp hm with h1 | h1
      · rcases (Pc path pg).1 k r h1 with ⟨m', hm', hi', he'⟩
        exact ⟨m', List.mem_append.mpr (Or.inl hm'), hi', he'⟩
      · rcases (Qcs path pg).1 k r h1 with ⟨m', hm', hi', he'⟩
        exact ⟨m', List.mem_append.mpr (Or.inr hm'), hi', he'⟩
    · intro k s hm
      rw [show svPairsL (c :: cs) path pg = svPairs c path pg ++ svPairsL cs path pg
        from by simp [svPairsL]] at hm
      rw [show subtreeNodesL (c :: cs) = subtreeNodes c ++ subtreeNodesL cs
        from by simp [subtreeNodesL]]
      rcases List.mem_append.mp hm with h1 | h1
      · rcases (Pc path pg).2 k s h1 with ⟨⟨m', hm', hi', he'⟩, hreason⟩
        exact ⟨⟨m', List.mem_append.mpr (Or.inl hm'), hi', he'⟩, hreason⟩
      · rcases (Qcs path pg).2 k s h1 with ⟨⟨m', hm', hi', he'⟩, hreason⟩
        exact ⟨⟨m', List.mem_append.mpr (Or.inr hm'), hi', he'⟩, hreason⟩

theorem scanFindAt_trans {c : PNode} {d : Nat} {m : PNode} {dm : Nat} {gc v : PNode} {dv : Nat}
    (h1 : scanFindAt c d m dm) (hgc : gc ∈ m.childrenD) (h2 : scanFindAt gc (dm + 1) v dv) :
    scanFindAt c d v dv := by
  induction h1 with
  | here hd => exact .deeper hd hgc h2
  | deeper hd hmem _ ih => exact .deeper hd hmem (ih hgc h2)

theorem mem_vecChildListL_of_mem {c : PNode} {l : List PNode} (hc : c ∈ l) {d : Nat}
    {vc : VecChild} (hx : vc ∈ vecChildList c d) : vc ∈ vecChildListL l d := by
  induction l with
  | nil => simp at hc
  | cons e rest ih =>
    rw [show vecChildListL (e :: rest) d = vecChildList e d ++ vecChildListL rest d
      from by simp [vecChildListL]]
    rcases List.mem_cons.mp hc with he | hr
    · subst he
      exact List.mem_append.mpr (Or.inl hx)
    · exact List.mem_append.mpr (Or.inr (ih hr))

theorem mem_ivcPairsL_of_mem {c : PNode} {l : List PNode} (hc : c ∈ l) {path : String}
    {x : String × ChildRec} (hx : x ∈ ivcPairs c path) : x ∈ ivcPairsL l path := by
  induction l with
  | nil => simp at hc
  | cons e rest ih =>
    rw [show ivcPairsL (e :: rest) path = ivcPairs e path ++ ivcPairsL rest path
      from by simp [ivcPairsL]]
    rcases List.mem_cons.mp hc with he | hr
    · subst he
      exact List.mem_append.mpr (Or.inl hx)
    · exact List.mem_append.mpr (Or.inr (ih hr))

theorem mem_svPairsL_of_mem {c : PNode} {l : List PNode} (hc : c ∈ l) {path : String}
    {pg : Option GroupRef} {x : String × StandaloneRec} (hx : x ∈ svPairs c path pg) :
    x ∈ svPairsL l path pg := by
  induction l with
  | nil => simp at hc
  | cons e rest ih =>
    rw [show svPairsL (e :: rest) path pg = svPairs e path pg ++ svPairsL rest path pg
      from by simp [svPairsL]]
    rcases List.mem_cons.mp hc with he | hr
    · subst he
      exact List.mem_append.mpr (Or.inl hx)
    · exact List.mem_append.mpr (Or.inr (ih hr))

theorem isPure_typeD {n : PNode} (h : isPureVector n = true) : n.typeD = "VECTOR" := by
  by_cases h1 : n.typeD = "VECTOR"
  · exact h1
  · exfalso
    have hb : (n.typeD != "VECTOR") = true := by simp [bne, h1]
    simp [isPureVector, hb] at h

theorem svPairs_key_of_reachClean {n m : PNode} (hr : reachClean n m)
    (hp : isPureVector m = true) :
    ∀ path, m.idD ∈ (svPairs n path none).map Prod.fst := by
  induction hr with
  | refl n0 =>
    intro path
    rcases n0 with ⟨i, t, nm, f, mm, ch, b⟩
    have hG : ((PNode.mk i t nm f mm ch b).typeD == "GROUP") = false := by
      simp [isPure_typeD hp]
    have hp' : (isPureVector (PNode.mk i t nm f mm ch b)
        && (none : Option GroupRef).isNone) = true := by
      simp [hp]
    cases ch with
    | some l =>
      simp [svPairs, hG, hp']
      exact Or.inl hp
    | none =>
      simp [svPairs, hG, hp']
      exact hp
  | @step n0 c m0 hng hnf hnc hni hmem hrec ih =>
    intro path
    rcases n0 with ⟨i, t, nm, f, mm, ch, b⟩
    cases ch with
    | none => simp [PNode.childrenD] at hmem
    | some l =>
      simp only [PNode.childrenD] at hmem
      have hG : ((PNode.mk i t nm f mm (some l) b).typeD == "GROUP") = false := by
        simp [hng]
      have hFL : ((PNode.mk i t nm f mm (some l) b).typeD == "FRAME"
          || (PNode.mk i t nm f mm (some l) b).typeD == "COMPONENT"
          || (PNode.mk i t nm f mm (some l) b).typeD == "INSTANCE") = false := by
        simp [hnf, hnc, hni]
      have hx := ih hp (if path == "" then (PNode.mk i t nm f mm (some l) b).nameOr "Unnamed"
        else path ++ "/" ++ (PNode.mk i t nm f mm (some l) b).nameOr "Unnamed")
      rcases List.mem_map.mp hx with ⟨p, hp1, hp2⟩
      have hlift := mem_svPairsL_of_mem hmem hp1
      refine List.mem_map.mpr ⟨p, ?_, hp2⟩
      simp only [svPairs, hG, Bool.false_eq_true, if_false, hFL, List.mem_append]
      exact Or.inr hlift

theorem vecChildList_mem_of_scanFind {c : PNode} {d : Nat} {m : PNode} {dm : Nat}
    (h : scanFindAt c d m dm) (hi : includeCond m = true) :
    mkVecChild m ∈ vecChildList c d := by
  induction h with
  | @here c0 d0 hd =>
    have hd' : ¬ d0 > 5 := by omega
    rcases c0 with ⟨i, t, nm, f, mm, ch, b⟩
    cases ch with
    | some l =>
      rw [show vecChildList (PNode.mk i t nm f mm (some l) b) d0
        = stepVec (PNode.mk i t nm f mm (some l) b) ++ vecChildListL l (d0 + 1)
        from by simp [vecChildList, hd']]
      exact List.mem_append.mpr (Or.inl (by simp [stepVec, hi]))
    | none =>
      rw [show vecChildList (PNode.mk i t nm f mm none b) d0
        = stepVec (PNode.mk i t nm f mm none b) from by simp [vecChildList, hd']]
      simp [stepVec, hi]
  | @deeper c0 d0 gc m0 dm0 hd hmem hrec ih =>
    have hd' : ¬ d0 > 5 := by omega
    rcases c0 with ⟨i, t, nm, f, mm, ch, b⟩
    cases ch with
    | none => simp [PNode.childrenD] at hmem
    | some l =>
      simp only [PNode.childrenD] at hmem
      rw [show vecChildList (PNode.mk i t nm f mm (some l) b) d0
        = stepVec (PNode.mk i t nm f mm (some l) b) ++ vecChildListL l (d0 + 1)
        from by simp [vecChildList, hd']]
      exact List.mem_append.mpr (Or.inr (mem_vecChildListL_of_mem hmem (ih hi)))

theorem ivcPairs_mem_of_reachNG {n g : PNode} (hr : reachNG n g)
    (hG : g.typeD = "GROUP") {v : PNode} (hv : mkVecChild v ∈ vecChildListL g.childrenD 0) :
    ∀ path, ∃ cp, (v.idD, mkChildRec (mkVecChild v) cp g.idD (g.nameOr "Unnamed"))
      ∈ ivcPairs n path := by
  induction hr with
  | refl n0 =>
    intro path
    rcases n0 with ⟨i, t, nm, f, mm, ch, b⟩
    have hG' : ((PNode.mk i t nm f mm ch b).typeD == "GROUP") = true := by
      simp [hG]
    refine ⟨if path == "" then (PNode.mk i t nm f mm ch b).nameOr "Unnamed"
      else path ++ "/" ++ (PNode.mk i t nm f mm ch b).nameOr "Unnamed", ?_⟩
    have he : ivcPairs (PNode.mk i t nm f mm ch b) path
        = (vecChildListL (PNode.mk i t nm f mm ch b).childrenD 0).map fun vc =>
            (vc.vid, mkChildRec vc
              (if path == "" then (PNode.mk i t nm f mm ch b).nameOr "Unnamed"
               else path ++ "/" ++ (PNode.mk i t nm f mm ch b).nameOr "Unnamed")
              ((PNode.mk i t nm f mm ch b).idD) ((PNode.mk i t nm f mm ch b).nameOr "Unnamed")) := by
      cases ch <;> simp [ivcPairs, hG']
    rw [he]
    exact List.mem_map.mpr ⟨mkVecChild v, hv, rfl⟩
  | @step n0 c g0 hng hmem hrec ih =>
    intro path
    rcases n0 with ⟨i, t, nm, f, mm, ch, b⟩
    cases ch with
    | none => simp [PNode.childrenD] at hmem
    | some l =>
      simp only [PNode.childrenD] at hmem
      have hG' : ((PNode.mk i t nm f mm (some l) b).typeD == "GROUP") = false := by
        simp [hng]
      rcases ih hG hv (if path == "" then (PNode.mk i t nm f mm (some l) b).nameOr "Unnamed"
        else path ++ "/" ++ (PNode.mk i t nm f mm (some l) b).nameOr "Unnamed") with ⟨cp, hcp⟩
      refine ⟨cp, ?_⟩
      rw [show ivcPairs (PNode.mk i t nm f mm (some l) b) path
        = ivcPairsL l (if path == "" then (PNode.mk i t nm f mm (some l) b).nameOr "Unnamed"
            else path ++ "/" ++ (PNode.mk i t nm f mm (some l) b).nameOr "Unnamed")
        from by simp [ivcPairs, hG']]
      exact mem_ivcPairsL_of_mem hmem hcp

theorem mapColon_inj {c1 c2 : Char} (h1 : c1 ≠ '_') (h2 : c2 ≠ '_')
    (he : (if c1 == ':' then '_' else c1) = (if c2 == ':' then '_' else c2)) : c1 = c2 := by
  by_cases e1 : c1 = ':'
  · by_cases e2 : c2 = ':'
    · rw [e1, e2]
    · exfalso
      rw [if_pos (by simp [e1]), if_neg (by simp [e2])] at he
      exact h2 he.symm
  · by_cases e2 : c2 = ':'
    · exfalso
      rw [if_neg (by simp [e1]), if_pos (by simp [e2])] at he
      exact h1 he
    · rwa [if_neg (by simp [e1]), if_neg (by simp [e2])] at he

theorem mapColon_list_inj : ∀ (l1 l2 : List Char), '_' ∉ l1 → '_' ∉ l2 →
    l1.map (fun ch => if ch == ':' then '_' else ch)
      = l2.map (fun ch => if ch == ':' then '_' else ch) → l1 = l2 := by
  intro l1
  induction l1 with
  | nil =>
    intro l2 _ _ he
    cases l2 with
    | nil => rfl
    | cons d rest2 => simp at he
  | cons c rest ih =>
    intro l2 h1 h2 he
    cases l2 with
    | nil => simp at he
    | cons d rest2 =>
      simp only [List.map_cons, List.cons.injEq] at he
      simp only [List.mem_cons, not_or] at h1 h2
      have hc := mapColon_inj (fun hx => h1.1 hx.symm) (fun hx => h2.1 hx.symm) he.1
      rw [hc, ih rest2 h1.2 h2.2 he.2]

theorem digit_ne_underscore {c : Char} (h : c.isDigit = true) : c ≠ '_' := by
  intro he
  subst he
  exact absurd h (by decide)

theorem isMajorMinor_no_underscore {s : String} (h : isMajorMinorB s = true) :
    '_' ∉ s.data := by
  intro hmem
  unfold isMajorMinorB at h
  rcases hdrop : s.data.dropWhile (fun ch => !(ch == ':')) with _ | ⟨c, rest⟩
  · rw [hdrop] at h
    simp at h
  · rw [hdrop] at h
    simp only [Bool.and_eq_true, beq_iff_eq] at h
    obtain ⟨⟨⟨⟨hc, _⟩, ha⟩, _⟩, hrest⟩ := h
    have hsplit := List.takeWhile_append_dropWhile (fun ch => !(ch == ':')) s.data
    rw [hdrop] at hsplit
    rw [← hsplit] at hmem
    rcases List.mem_append.mp hmem with hin | hin
    · have := List.all_eq_true.mp ha _ hin
      exact digit_ne_underscore this rfl
    · rcases List.mem_cons.mp hin with he | hin
      · rw [hc] at he
        simp at he
      · have := List.all_eq_true.mp hrest _ hin
        exact digit_ne_underscore this rfl

theorem generateFilename_inj {s1 s2 : String} (h1 : isMajorMinorB s1 = true)
    (h2 : isMajorMinorB s2 = true) (he : generateFilename s1 = generateFilename s2) :
    s1 = s2 := by
  have hu1 := isMajorMinor_no_underscore h1
  have hu2 := isMajorMinor_no_underscore h2
  have hdata : (pyReplaceColon s1).data ++ ".svg".data
      = (pyReplaceColon s2).data ++ ".svg".data := by
    have hx := congrArg String.data he
    simpa only [generateFilename, String.data_append] using hx
  have hmap := List.append_cancel_right hdata
  exact String.ext (mapColon_list_inj _ _ hu1 hu2 hmap)

/-! ### Equivalence of the stateful extractors with the collectors -/

theorem json_mutual_ind (P : Json → Prop) (Q : List Json → Prop) (R : List (String × Json) → Prop)
    (hstr : ∀ s, P (.str s)) (hnum : ∀ n, P (.num n)) (hbool : ∀ b, P (.jbool b))
    (hnull : P .null)
    (harr : ∀ xs, Q xs → P (.arr xs)) (hobj : ∀ fs, R fs → P (.obj fs))
    (hqnil : Q []) (hqcons : ∀ x xs, P x → Q xs → Q (x :: xs))
    (hrnil : R []) (hrcons : ∀ (a : String) (v : Json) rest, P v → R rest → R ((a, v) :: rest)) :
    (∀ j, P j) ∧ (∀ l, Q l) ∧ (∀ fs, R fs) := by
  have key : ∀ k : Nat, (∀ j : Json, sizeOf j ≤ k → P j) ∧
      (∀ l : List Json, sizeOf l ≤ k → Q l) ∧
      (∀ fs : List (String × Json), sizeOf fs ≤ k → R fs) := by
    intro k
    induction k using Nat.strong_induction_on with
    | _ k ih =>
      refine ⟨?_, ?_, ?_⟩
      · intro j hj
        cases j with
        | str s => exact hstr s
        | num n => exact hnum n
        | jbool b => exact hbool b
        | null => exact hnull
        | arr xs =>
          have hs : sizeOf (Json.arr xs) = 1 + sizeOf xs := by simp
          rw [hs] at hj
          exact harr xs ((ih _ (by omega)).2.1 xs (Nat.le_refl _))
        | obj fs =>
          have hs : sizeOf (Json.obj fs) = 1 + sizeOf fs := by simp
          rw [hs] at hj
          exact hobj fs ((ih _ (by omega)).2.2 fs (Nat.le_refl _))
      · intro l hl
        cases l with
        | nil => exact hqnil
        | cons x xs =>
          have hs : sizeOf (x :: xs) = 1 + sizeOf x + sizeOf xs := by simp
          rw [hs] at hl
          exact hqcons x xs ((ih _ (by omega)).1 x (Nat.le_refl _))
            ((ih _ (by omega)).2.1 xs (Nat.le_refl _))
      · intro fs hf
        cases fs with
        | nil => exact hrnil
        | cons p rest =>
          obtain ⟨a, v⟩ := p
          have hs : sizeOf ((a, v) :: rest) = 1 + (1 + sizeOf a + sizeOf v) + sizeOf rest := by
            simp
          rw [hs] at hf
          exact hrcons a v rest ((ih _ (by omega)).1 v (Nat.le_refl _))
            ((ih _ (by omega)).2.2 rest (Nat.le_refl _))
  exact ⟨fun j => (key (sizeOf j)).1 j (Nat.le_refl _),
         fun l => (key (sizeOf l)).2.1 l (Nat.le_refl _),
         fun fs => (key (sizeOf fs)).2.2 fs (Nat.le_refl _)⟩

theorem json_mutual_ind2 (P : Json → Prop) (Q : List Json → Prop) (R : List (String × Json) → Prop)
    (hatom : ∀ j : Json, (∀ fs, j = .obj fs → R fs) → P j)
    (hqnil : Q []) (hqcons : ∀ x xs, P x → Q xs → Q (x :: xs))
    (hrnil : R [])
    (hrcons : ∀ (a : String) (v : Json) rest, (∀ cs, v = .arr cs → Q cs) → R rest →
      R ((a, v) :: rest)) :
    (∀ j, P j) ∧ (∀ l, Q l) ∧ (∀ fs, R fs) := by
  have key : ∀ k : Nat, (∀ j : Json, sizeOf j ≤ k → P j) ∧
      (∀ l : List Json, sizeOf l ≤ k → Q l) ∧
      (∀ fs : List (String × Json), sizeOf fs ≤ k → R fs) := by
    intro k
    induction k using Nat.strong_induction_on with
    | _ k ih =>
      refine ⟨?_, ?_, ?_⟩
      · intro j hj
        refine hatom j ?_
        intro fs he
        subst he
        have hs : sizeOf (Json.obj fs) = 1 + sizeOf fs := by simp
        rw [hs] at hj
        exact (ih _ (by omega)).2.2 fs (Nat.le_refl _)
      · intro l hl
        cases l with
        | nil => exact hqnil
        | cons x xs =>
          have hs : sizeOf (x :: xs) = 1 + sizeOf x + sizeOf xs := by simp
          rw [hs] at hl
          exact hqcons x xs ((ih _ (by omega)).1 x (Nat.le_refl _))
            ((ih _ (by omega)).2.1 xs (Nat.le_refl _))
      · intro fs hf
        cases fs with
        | nil => exact hrnil
        | cons p rest =>
          obtain ⟨a, v⟩ := p
          have hs : sizeOf ((a, v) :: rest) = 1 + (1 + sizeOf a + sizeOf v) + sizeOf rest := by
            simp
          rw [hs] at hf
          refine hrcons a v rest ?_ ((ih _ (by omega)).2.2 rest (Nat.le_refl _))
          intro cs he
          subst he
          have hs2 : sizeOf (Json.arr cs) = 1 + sizeOf cs := by simp
          rw [hs2] at hf
          exact (ih _ (by omega)).2.1 cs (Nat.le_refl _)
  exact ⟨fun j => (key (sizeOf j)).1 j (Nat.le_refl _),
         fun l => (key (sizeOf l)).2.1 l (Nat.le_refl _),
         fun fs => (key (sizeOf fs)).2.2 fs (Nat.le_refl _)⟩

theorem mem_insertSet (s : List String) (x a : String) :
    a ∈ insertSet s x ↔ a ∈ s ∨ a = x := by
  by_cases h : x ∈ s
  · simp only [insertSet, if_pos h]
    constructor
    · exact Or.inl
    · rintro (ha | rfl)
      · exact ha
      · exact h
  · simp [insertSet, h]

theorem nodup_insertSet {s : List String} (x : String) (h : s.Nodup) :
    (insertSet s x).Nodup := by
  by_cases hx : x ∈ s
  · simpa [insertSet, hx] using h
  · rw [insertSet, if_neg hx]
    refine List.Nodup.append h (List.nodup_singleton x) ?_
    intro a ha hk
    rw [List.mem_singleton] at hk
    subst hk
    exact hx ha

theorem addFillRef_eq (cur : Option String) (st : RState) (f : Json) :
    addFillRef cur st f =
      match refOf f with
      | some r =>
        { refs := insertSet st.refs r,
          nodes := match cur with
            | some n => insertSet st.nodes n
            | none => st.nodes }
      | none => st := by
  cases f with
  | obj ff =>
    simp only [addFillRef, refOf]
    cases hty : lookupA ff "type" with
    | none => rfl
    | some ty =>
      cases ty <;> try rfl
      case str s =>
        cases hir : lookupA ff "imageRef" with
        | none => rfl
        | some ir =>
          cases ir <;> try rfl
          case str r =>
            by_cases hI : (s == "IMAGE") = true
            · simp [hI]
            · simp [hI]
  | str s => rfl
  | num n => rfl
  | jbool b => rfl
  | null => rfl
  | arr xs => rfl

theorem addFillRef2_eq (refs : List String) (f : Json) :
    addFillRef2 refs f =
      match refOf2 f with
      | some r => insertSet refs r
      | none => refs := by
  cases f with
  | obj ff =>
    simp only [addFillRef2, refOf2]
    cases hty : lookupA ff "type" with
    | none => rfl
    | some ty =>
      cases ty <;> try rfl
      case str s =>
        cases hir : lookupA ff "imageRef" with
        | none => rfl
        | some ir =>
          cases ir <;> try rfl
          case str r =>
            by_cases hI : (s == "IMAGE" && !r.isEmpty) = true
            · simp [hI]
            · simp [hI]
  | str s => rfl
  | num n => rfl
  | jbool b => rfl
  | null => rfl
  | arr xs => rfl

theorem foldFill_char (cur : Option String) (fs : List Json) : ∀ st : RState,
    (∀ r, r ∈ (fs.foldl (addFillRef cur) st).refs ↔ r ∈ st.refs ∨ r ∈ fs.filterMap refOf) ∧
    (∀ n, n ∈ (fs.foldl (addFillRef cur) st).nodes ↔
      n ∈ st.nodes ∨ (cur = some n ∧ fs.filterMap refOf ≠ [])) ∧
    (st.refs.Nodup → (fs.foldl (addFillRef cur) st).refs.Nodup) ∧
    (st.nodes.Nodup → (fs.foldl (addFillRef cur) st).nodes.Nodup) := by
  induction fs with
  | nil => simp
  | cons f rest ih =>
    intro st
    simp only [List.foldl_cons]
    have heq := addFillRef_eq cur st f
    cases ho : refOf f with
    | none =>
      rw [ho] at heq
      simp only at heq
      rw [heq]
      refine ⟨?_, ?_, ?_, ?_⟩
      · intro r
        rw [(ih _).1 r]
        simp [List.filterMap_cons, ho]
      · intro n
        rw [(ih _).2.1 n]
        simp [List.filterMap_cons, ho]
      · exact (ih _).2.2.1
      · exact (ih _).2.2.2
    | some r0 =>
      rw [ho] at heq
      simp only at heq
      rw [heq]
      refine ⟨?_, ?_, ?_, ?_⟩
      · intro r
        rw [(ih _).1 r]
        show r ∈ insertSet st.refs r0 ∨ _ ↔ _
        rw [mem_insertSet, List.filterMap_cons, ho]
        simp only [List.mem_cons]
        tauto
      · intro n
        rw [(ih _).2.1 n]
        cases cur with
        | none => simp [List.filterMap_cons, ho]
        | some n0 =>
          show n ∈ insertSet st.nodes n0 ∨ _ ↔ _
          rw [mem_insertSet, List.filterMap_cons, ho]
          constructor
          · rintro ((hn | rfl) | ⟨he, _⟩)
            · exact Or.inl hn
            · exact Or.inr ⟨rfl, by simp⟩
            · exact Or.inr ⟨he, by simp⟩
          · rintro (hn | ⟨he, _⟩)
            · exact Or.inl (Or.inl hn)
            · injection he with he2
              subst he2
              exact Or.inl (Or.inr rfl)
      · intro hn
        exact (ih _).2.2.1 (nodup_insertSet r0 hn)
      · intro hn
        refine (ih _).2.2.2 ?_
        cases cur with
        | none => exact hn
        | some n0 => exact nodup_insertSet n0 hn

theorem foldFill2_char (fs : List Json) : ∀ refs : List String,
    (∀ r, r ∈ fs.foldl addFillRef2 refs ↔ r ∈ refs ∨ r ∈ fs.filterMap refOf2) ∧
    (refs.Nodup → (fs.foldl addFillRef2 refs).Nodup) := by
  induction fs with
  | nil => simp
  | cons f rest ih =>
    intro refs
    simp only [List.foldl_cons]
    have heq := addFillRef2_eq refs f
    cases ho : refOf2 f with
    | none =>
      rw [ho] at heq
      simp only at heq
      refine ⟨?_, ?_⟩
      · intro r
        rw [(ih _).1 r, heq]
        simp [List.filterMap_cons, ho]
      · intro hn
        exact (ih _).2 (by rw [heq]; exact hn)
    | some r0 =>
      rw [ho] at heq
      simp only at heq
      refine ⟨?_, ?_⟩
      · intro r
        rw [(ih _).1 r, heq, mem_insertSet]
        rw [List.filterMap_cons, ho]
        simp only [List.mem_cons]
        tauto
      · intro hn
        exact (ih _).2 (by rw [heq]; exact nodup_insertSet r0 hn)

theorem foldPaint_char (cur : Option String) (v : Option Json) (st : RState) :
    (∀ r, r ∈ (match v with
        | some (.arr fs) => fs.foldl (addFillRef cur) st
        | _ => st).refs ↔ r ∈ st.refs ∨ r ∈ paintRefs v) ∧
    (∀ n, n ∈ (match v with
        | some (.arr fs) => fs.foldl (addFillRef cur) st
        | _ => st).nodes ↔ n ∈ st.nodes ∨ (cur = some n ∧ paintRefs v ≠ [])) ∧
    (st.refs.Nodup → (match v with
        | some (.arr fs) => fs.foldl (addFillRef cur) st
        | _ => st).refs.Nodup) ∧
    (st.nodes.Nodup → (match v with
        | some (.arr fs) => fs.foldl (addFillRef cur) st
        | _ => st).nodes.Nodup) := by
  cases v with
  | none => simp [paintRefs]
  | some w =>
    cases w with
    | arr fs =>
      have h := foldFill_char cur fs st
      exact ⟨fun r => by rw [(h.1 r)]; rfl,
             fun n => by rw [(h.2.1 n)]; rfl,
             h.2.2.1, h.2.2.2⟩
    | str s => simp [paintRefs]
    | num n => simp [paintRefs]
    | jbool b => simp [paintRefs]
    | null => simp [paintRefs]
    | obj fs => simp [paintRefs]

theorem foldPaint2_char (v : Option Json) (refs : List String) :
    (∀ r, r ∈ (match v with
        | some (.arr fs) => fs.foldl addFillRef2 refs
        | _ => refs) ↔ r ∈ refs ∨ r ∈ paintRefs2 v) ∧
    (refs.Nodup → (match v with
        | some (.arr fs) => fs.foldl addFillRef2 refs
        | _ => refs).Nodup) := by
  cases v with
  | none => simp [paintRefs2]
  | some w =>
    cases w with
    | arr fs =>
      have h := foldFill2_char fs refs
      exact ⟨fun r => by rw [(h.1 r)]; rfl, h.2⟩
    | str s => simp [paintRefs2]
    | num n => simp [paintRefs2]
    | jbool b => simp [paintRefs2]
    | null => simp [paintRefs2]
    | obj fs => simp [paintRefs2]

theorem mem_head_ite (C : Option String) (f b : List String) (n : String) :
    (n ∈ if (!f.isEmpty || !b.isEmpty) = true then
        (match C with | some n0 => [n0] | none => []) else ([] : List String)) ↔
    (C = some n ∧ (f ≠ [] ∨ b ≠ [])) := by
  by_cases hc : (!f.isEmpty || !b.isEmpty) = true
  · rw [if_pos hc]
    have hc2 : f ≠ [] ∨ b ≠ [] := by
      rcases Bool.or_eq_true_iff.mp hc with h | h
      · left
        intro he
        rw [he] at h
        simp at h
      · right
        intro he
        rw [he] at h
        simp at h
    cases C with
    | none => simp
    | some n0 =>
      simp only [List.mem_singleton]
      constructor
      · rintro rfl
        exact ⟨rfl, hc2⟩
      · rintro ⟨he, _⟩
        injection he with he2
        exact he2.symm
  · rw [if_neg hc]
    simp only [List.not_mem_nil, false_iff, not_and]
    intro _
    rintro (hf | hb)
    · exact hc (by simp [List.isEmpty_iff, hf])
    · exact hc (by
        rcases hx : b with _ | _
        · exact absurd hx hb
        · simp [hx])

theorem trav_char :
    (∀ j : Json, ∀ (st : RState) (cur : Option String),
      (∀ r, r ∈ (travJson st cur j).refs ↔ r ∈ st.refs ∨ r ∈ specRefsJson j) ∧
      (∀ n, n ∈ (travJson st cur j).nodes ↔ n ∈ st.nodes ∨ n ∈ specNodesJson j cur) ∧
      (st.refs.Nodup → (travJson st cur j).refs.Nodup) ∧
      (st.nodes.Nodup → (travJson st cur j).nodes.Nodup)) ∧
    (∀ l : List Json, ∀ (st : RState) (cur : Option String),
      (∀ r, r ∈ (travList st cur l).refs ↔ r ∈ st.refs ∨ r ∈ specRefsList l) ∧
      (∀ n, n ∈ (travList st cur l).nodes ↔ n ∈ st.nodes ∨ n ∈ specNodesList l cur) ∧
      (st.refs.Nodup → (travList st cur l).refs.Nodup) ∧
      (st.nodes.Nodup → (travList st cur l).nodes.Nodup)) ∧
    (∀ fs : List (String × Json), ∀ (st : RState) (cur : Option String),
      (∀ r, r ∈ (travFields st cur fs).refs ↔ r ∈ st.refs ∨ r ∈ specRefsFields fs) ∧
      (∀ n, n ∈ (travFields st cur fs).nodes ↔ n ∈ st.nodes ∨ n ∈ specNodesFields fs cur) ∧
      (st.refs.Nodup → (travFields st cur fs).refs.Nodup) ∧
      (st.nodes.Nodup → (travFields st cur fs).nodes.Nodup)) := by
  apply json_mutual_ind
  · intro s st cur
    simp [travJson, specRefsJson, specNodesJson]
  · intro n st cur
    simp [travJson, specRefsJson, specNodesJson]
  · intro b st cur
    simp [travJson, specRefsJson, specNodesJson]
  · intro st cur
    simp [travJson, specRefsJson, specNodesJson]
  · intro xs hQ st cur
    simp only [travJson, specRefsJson, specNodesJson]
    exact hQ st cur
  · intro fields hR st cur
    simp only [travJson, specRefsJson, specNodesJson]
    refine ⟨?_, ?_, ?_, ?_⟩
    · intro r
      rw [((hR _ _).1 r)]
      rw [((foldPaint_char _ (lookupA fields "backgrounds") _).1 r)]
      rw [((foldPaint_char _ (lookupA fields "fills") _).1 r)]
      simp only [List.mem_append]
      tauto
    · intro n
      rw [((hR _ _).2.1 n)]
      rw [((foldPaint_char _ (lookupA fields "backgrounds") _).2.1 n)]
      rw [((foldPaint_char _ (lookupA fields "fills") _).2.1 n)]
      rw [List.mem_append, mem_head_ite]
      tauto
    · intro hn
      exact (hR _ _).2.2.1
        ((foldPaint_char _ (lookupA fields "backgrounds") _).2.2.1
          ((foldPaint_char _ (lookupA fields "fills") _).2.2.1 hn))
    · intro hn
      exact (hR _ _).2.2.2
        ((foldPaint_char _ (lookupA fields "backgrounds") _).2.2.2
          ((foldPaint_char _ (lookupA fields "fills") _).2.2.2 hn))
  · intro st cur
    simp [travList, specRefsList, specNodesList]
  · intro x xs Px Qxs st cur
    have e1 : travList st cur (x :: xs) = travList (travJson st cur x) cur xs := by
      simp [travList]
    rw [e1]
    refine ⟨?_, ?_, ?_, ?_⟩
    · intro r
      rw [((Qxs _ _).1 r), ((Px _ _).1 r)]
      simp only [specRefsList, List.mem_append]
      tauto
    · intro n
      rw [((Qxs _ _).2.1 n), ((Px _ _).2.1 n)]
      simp only [specNodesList, List.mem_append]
      tauto
    · intro hn
      exact (Qxs _ _).2.2.1 ((Px _ _).2.2.1 hn)
    · intro hn
      exact (Qxs _ _).2.2.2 ((Px _ _).2.2.2 hn)
  · intro st cur
    simp [travFields, specRefsFields, specNodesFields]
  · intro a v rest Pv Rrest st cur
    have e1 : travFields st cur ((a, v) :: rest) = travFields (travJson st cur v) cur rest := by
      simp [travFields]
    rw [e1]
    refine ⟨?_, ?_, ?_, ?_⟩
    · intro r
      rw [((Rrest _ _).1 r), ((Pv _ _).1 r)]
      simp only [specRefsFields, List.mem_append]
      tauto
    · intro n
      rw [((Rrest _ _).2.1 n), ((Pv _ _).2.1 n)]
      simp only [specNodesFields, List.mem_append]
      tauto
    · intro hn
      exact (Rrest _ _).2.2.1 ((Pv _ _).2.2.1 hn)
    · intro hn
      exact (Rrest _ _).2.2.2 ((Pv _ _).2.2.2 hn)

theorem travNode_char :
    (∀ j : Json, ∀ refs : List String,
      (∀ r, r ∈ travNode refs j ↔ r ∈ refs ∨ r ∈ specRefsNode j) ∧
      (refs.Nodup → (travNode refs j).Nodup)) ∧
    (∀ l : List Json, ∀ refs : List String,
      (∀ r, r ∈ travNodeList refs l ↔ r ∈ refs ∨ r ∈ specRefsNodeList l) ∧
      (refs.Nodup → (travNodeList refs l).Nodup)) ∧
    (∀ fs : List (String × Json), ∀ refs : List String,
      (∀ r, r ∈ travNodeFields refs fs ↔ r ∈ refs ∨ r ∈ specRefsNodeFields fs) ∧
      (refs.Nodup → (travNodeFields refs fs).Nodup)) := by
  apply json_mutual_ind2
  · intro j hobj refs
    cases j with
    | obj fields =>
      have hR := hobj fields rfl
      simp only [travNode, specRefsNode]
      refine ⟨?_, ?_⟩
      · intro r
        rw [((hR _).1 r)]
        rw [((foldPaint2_char (lookupA fields "background") _).1 r)]
        rw [((foldPaint2_char (lookupA fields "backgrounds") _).1 r)]
        rw [((foldPaint2_char (lookupA fields "fills") _).1 r)]
        simp only [List.mem_append]
        tauto
      · intro hn
        exact (hR _).2 ((foldPaint2_char (lookupA fields "background") _).2
          ((foldPaint2_char (lookupA fields "backgrounds") _).2
            ((foldPaint2_char (lookupA fields "fills") _).2 hn)))
    | str s => exact ⟨fun r => by simp [travNode, specRefsNode], fun h => by simpa [travNode] using h⟩
    | num n => exact ⟨fun r => by simp [travNode, specRefsNode], fun h => by simpa [travNode] using h⟩
    | jbool b => exact ⟨fun r => by simp [travNode, specRefsNode], fun h => by simpa [travNode] using h⟩
    | null => exact ⟨fun r => by simp [travNode, specRefsNode], fun h => by simpa [travNode] using h⟩
    | arr xs => exact ⟨fun r => by simp [travNode, specRefsNode], fun h => by simpa [travNode] using h⟩
  · intro refs
    simp [travNodeList, specRefsNodeList]
  · intro x xs Px Qxs refs
    have e1 : travNodeList refs (x :: xs) = travNodeList (travNode refs x) xs := by
      simp [travNodeList]
    rw [e1]
    refine ⟨?_, ?_⟩
    · intro r
      rw [((Qxs _).1 r), ((Px _).1 r)]
      simp only [specRefsNodeList, List.mem_append]
      tauto
    · intro hn
      exact (Qxs _).2 ((Px _).2 hn)
  · intro refs
    simp [travNodeFields, specRefsNodeFields]
  · intro a v rest hq Rrest refs
    by_cases ha : (a == "children") = true
    · cases v with
      | arr cs =>
        have hQ := hq cs rfl
        have e1 : travNodeFields refs ((a, .arr cs) :: rest)
            = travNodeFields (travNodeList refs cs) rest := by
          simp [travNodeFields, ha]
        have e2 : specRefsNodeFields ((a, .arr cs) :: rest)
            = specRefsNodeList cs ++ specRefsNodeFields rest := by
          simp [specRefsNodeFields, ha]
        rw [e1, e2]
        refine ⟨?_, ?_⟩
        · intro r
          rw [((Rrest _).1 r), ((hQ _).1 r)]
          simp only [List.mem_append]
          tauto
        · intro hn
          exact (Rrest _).2 ((hQ _).2 hn)
      | str s =>
        rw [show travNodeFields refs ((a, .str s) :: rest) = travNodeFields refs rest
            from by simp [travNodeFields, ha],
          show specRefsNodeFields ((a, .str s) :: rest) = specRefsNodeFields rest
            from by simp [specRefsNodeFields, ha]]
        exact Rrest refs
      | num n =>
        rw [show travNodeFields refs ((a, .num n) :: rest) = travNodeFields refs rest
            from by simp [travNodeFields, ha],
          show specRefsNodeFields ((a, .num n) :: rest) = specRefsNodeFields rest
            from by simp [specRefsNodeFields, ha]]
        exact Rrest refs
      | jbool b =>
        rw [show travNodeFields refs ((a, .jbool b) :: rest) = travNodeFields refs rest
            from by simp [travNodeFields, ha],
          show specRefsNodeFields ((a, .jbool b) :: rest) = specRefsNodeFields rest
            from by simp [specRefsNodeFields, ha]]
        exact Rrest refs
      | null =>
        rw [show travNodeFields refs ((a, .null) :: rest) = travNodeFields refs rest
            from by simp [travNodeFields, ha],
          show specRefsNodeFields ((a, .null) :: rest) = specRefsNodeFields rest
            from by simp [specRefsNodeFields, ha]]
        exact Rrest refs
      | obj fs2 =>
        rw [show travNodeFields refs ((a, .obj fs2) :: rest) = travNodeFields refs rest
            from by simp [travNodeFields, ha],
          show specRefsNodeFields ((a, .obj fs2) :: rest) = specRefsNodeFields rest
            from by simp [specRefsNodeFields, ha]]
        exact Rrest refs
    · cases v <;>
        (simp only [travNodeFields, specRefsNodeFields, ha, Bool.false_eq_true, if_false,
           List.nil_append]
         exact Rrest refs)

theorem insertAll_eq_append {α : Type} {d l : List (String × α)}
    (h : (d.map Prod.fst ++ l.map Prod.fst).Nodup) :
    insertAll d l = d ++ l := by
  induction l generalizing d with
  | nil => simp [insertAll]
  | cons p rest ih =>
    have hpd : p.1 ∉ d.map Prod.fst := by
      intro hm
      have := List.disjoint_of_nodup_append h hm
      simp at this
    have hins : dictInsert d p.1 p.2 = d ++ [p] := by
      induction d with
      | nil => rfl
      | cons q qd ihd =>
        have hq : ¬ q.1 = p.1 := by
          intro he
          exact hpd (by simp [he])
        rw [show dictInsert (q :: qd) p.1 p.2 = q :: dictInsert qd p.1 p.2 from by
          simp [dictInsert, hq]]
        rw [ihd (by
          rw [List.map_cons] at h
          exact (List.nodup_cons.mp (by simpa using h)).2) (by
            intro hm
            exact hpd (by simp [hm]))]
        simp
    show insertAll (dictInsert d p.1 p.2) rest = (d ++ p :: rest)
    rw [hins, ih (by
      have e : (d ++ [p]).map Prod.fst ++ rest.map Prod.fst
          = d.map Prod.fst ++ (p.1 :: rest.map Prod.fst) := by simp
      rw [e]
      simpa using h)]
    simp

/-! ### Claim theorems -/

/-- Claim C2: one preprocessing run records each node id at most once —
under the document invariant that node ids are unique, the ids tagged
VECTOR_CHILD_FROM_GROUP and the ids tagged STANDALONE_VECTOR are disjoint
sets, each without duplicates, and every node id keys at most one entry of
the produced `_svgDownloads` map (its key list is duplicate-free for every
input, even without the invariant). -/
theorem claim_C2 (fd : FigmaData) (t : String) (H : (docIds fd).Nodup) :
    ((runAnalysis fd).ivc.map Prod.fst).Disjoint ((runAnalysis fd).sv.map Prod.fst) ∧
    ((runAnalysis fd).ivc.map Prod.fst).Nodup ∧
    ((runAnalysis fd).sv.map Prod.fst).Nodup ∧
    ((preprocessFigmaJson t fd).svgDownloads.map Prod.fst).Nodup := by
  obtain ⟨h1, h2, h3⟩ := runAnalysis_partition fd H
  exact ⟨h3, h1, h2, downloads_keys_nodup t fd⟩

/-- Closed instance of C2 on a concrete document. -/
theorem claim_C2_witness :
    ((runAnalysis fdMix).ivc.map Prod.fst).Disjoint ((runAnalysis fdMix).sv.map Prod.fst) ∧
    ((runAnalysis fdMix).ivc.map Prod.fst).Nodup ∧
    ((runAnalysis fdMix).sv.map Prod.fst).Nodup ∧
    ((preprocessFigmaJson "T" fdMix).svgDownloads.map Prod.fst).Nodup := by
  have h : (docIds fdMix).Nodup := by decide
  exact claim_C2 fdMix "T" h

/-- Claim C3: a node qualifies for individual SVG export iff its type is
exactly VECTOR, its fills hold at least one SOLID entry, and isMask is not
true; every `_svgDownloads` record of a run is keyed by the id of some
qualifying node of the document, and an id for which no tree node
qualifies (for example a VECTOR whose only fill is an IMAGE fill) keys no
record. -/
theorem claim_C3 :
    (∀ n : PNode, isPureVector n = true ↔
      (n.typeD = "VECTOR" ∧ (∃ f ∈ n.fillsD, f = Fill.fdict (some "SOLID")) ∧
        n.maskD = false)) ∧
    (∀ (t : String) (fd : FigmaData) (k : String) (r : DownloadRec),
      lookupA (preprocessFigmaJson t fd).svgDownloads k = some r →
      ∃ m, m ∈ docNodes fd ∧ isPureVector m = true ∧ m.idD = k) ∧
    (∀ (t : String) (fd : FigmaData) (k : String),
      (∀ m, m ∈ docNodes fd → m.idD = k → isPureVector m = false) →
      lookupA (preprocessFigmaJson t fd).svgDownloads k = none) := by
  have hiff : ∀ n : PNode, isPureVector n = true ↔
      (n.typeD = "VECTOR" ∧ (∃ f ∈ n.fillsD, f = Fill.fdict (some "SOLID")) ∧
        n.maskD = false) := by
    intro n
    have hsolid : hasSolidFills n = true ↔ ∃ f ∈ n.fillsD, f = Fill.fdict (some "SOLID") := by
      rw [hasSolidFills, List.any_eq_true]
      constructor
      · rintro ⟨f, hf, hm⟩
        cases f with
        | fdict ft =>
          simp only [beq_iff_eq] at hm
          exact ⟨Fill.fdict ft, hf, by rw [hm]⟩
        | fother => simp at hm
      · rintro ⟨f, hf, rfl⟩
        exact ⟨Fill.fdict (some "SOLID"), hf, by simp⟩
    constructor
    · intro h
      refine ⟨isPure_typeD h, hsolid.mp ?_, ?_⟩
      · by_cases hs : hasSolidFills n = true
        · exact hs
        · exfalso
          have : (!hasSolidFills n) = true := by
            cases hx : hasSolidFills n
            · rfl
            · exact absurd hx hs
          simp [isPureVector, this] at h
      · cases hx : n.maskD
        · rfl
        · exfalso
          simp [isPureVector, hx] at h
    · rintro ⟨ht, hsol, hmask⟩
      have h1 : (n.typeD != "VECTOR") = false := by simp [bne, ht]
      have h2 : hasSolidFills n = true := hsolid.mpr hsol
      simp [isPureVector, h1, h2, hmask]
  have hsound : ∀ (t : String) (fd : FigmaData) (k : String) (r : DownloadRec),
      lookupA (preprocessFigmaJson t fd).svgDownloads k = some r →
      ∃ m, m ∈ docNodes fd ∧ isPureVector m = true ∧ m.idD = k := by
    intro t fd k r hl
    have hmem := lookupA_mem hl
    rw [preprocess_downloads] at hmem
    rcases mem_insertAll hmem with h1 | h1
    · rcases mem_insertAll h1 with h2 | h2
      · simp at h2
      · rcases List.mem_map.mp h2 with ⟨p, hp, he⟩
        have hk : p.1 = k := by
          have := congrArg Prod.fst he
          simpa using this
        have hpmem : (k, p.2) ∈ (runAnalysis fd).ivc := by
          rw [← hk]
          exact hp
        rw [runAnalysis_ivc] at hpmem
        rcases mem_insertAll hpmem with h3 | h3
        · simp at h3
        · rcases (pairs_sound.2 (docChildren fd) "" none).1 k p.2 h3 with ⟨m, hm, hpure, hke⟩
          exact ⟨m, hm, hpure, hke.symm⟩
    · rcases List.mem_map.mp h1 with ⟨p, hp, he⟩
      have hk : p.1 = k := by
        have := congrArg Prod.fst he
        simpa using this
      have hpmem : (k, p.2) ∈ (runAnalysis fd).sv := by
        rw [← hk]
        exact hp
      rw [runAnalysis_sv] at hpmem
      rcases mem_insertAll hpmem with h3 | h3
      · simp at h3
      · rcases ((pairs_sound.2 (docChildren fd) "" none).2 k p.2 h3).1 with ⟨m, hm, hpure, hke⟩
        exact ⟨m, hm, hpure, hke.symm⟩
  refine ⟨hiff, hsound, ?_⟩
  intro t fd k hnone
  cases hl : lookupA (preprocessFigmaJson t fd).svgDownloads k with
  | none => rfl
  | some r =>
    exfalso
    rcases hsound t fd k r hl with ⟨m, hm, hpure, hke⟩
    have := hnone m hm hke
    rw [hpure] at this
    exact Bool.true_eq_false.mp this

/-- Closed instance of C3 on a concrete document: the standalone vector
`20:1` is backed by a qualifying node, and an id with no qualifying node
keys no record. -/
theorem claim_C3_witness :
    (∃ m, m ∈ docNodes fdMix ∧ isPureVector m = true ∧ m.idD = "20:1") ∧
    lookupA (preprocessFigmaJson "T" fdMix).svgDownloads "10:3" = none := by
  have h1 : lookupA (preprocessFigmaJson "T" fdMix).svgDownloads "20:1" = some
      { nodeId := "20:1", dtype := "VECTOR", isGroup := false, componentName := "v20:1",
        dpath := "Page 1/v20:1", filename := "20_1.svg",
        extractionReason := "STANDALONE_VECTOR", parentGroupId := none,
        parentGroupName := none, bounds := none } := by decide
  have h2 : ∀ m, m ∈ docNodes fdMix → m.idD = "10:3" → isPureVector m = false := by decide
  exact ⟨claim_C3.2.1 "T" fdMix "20:1" _ h1, claim_C3.2.2 "T" fdMix "10:3" h2⟩

/-- Claim C8: a node with no `fills` key classifies exactly as the same
node with `fills` equal to `[]`, with no error — for the fill test, the
strict classifier, the per-child scan step and the whole group-content
scan. -/
theorem claim_C8 (n : PNode) (gs : GroupScan) (d : Nat) (stats : Stats) :
    hasSolidFills (setFills n none) = hasSolidFills (setFills n (some [])) ∧
    isPureVector (setFills n none) = isPureVector (setFills n (some [])) ∧
    examineChild gs (setFills n none) d = examineChild gs (setFills n (some [])) d ∧
    analyzeGroupContent stats (setFills n none) = analyzeGroupContent stats (setFills n (some [])) := by
  rcases n with ⟨i, t, nm, f, m, ch, b⟩
  cases ch with
  | some l =>
    refine ⟨rfl, rfl, ?_, rfl⟩
    have hstep : examineStep gs (setFills (PNode.mk i t nm f m (some l) b) none)
        = examineStep gs (setFills (PNode.mk i t nm f m (some l) b) (some [])) := rfl
    show examineChild gs (PNode.mk i t nm none m (some l) b) d
      = examineChild gs (PNode.mk i t nm (some []) m (some l) b) d
    by_cases hd : d > 5
    · simp [examineChild, hd]
    · simp only [examineChild, hd, if_false]
      exact congrArg (fun g => examineChildren g l (d + 1)) hstep
  | none =>
    refine ⟨rfl, rfl, ?_, rfl⟩
    show examineChild gs (PNode.mk i t nm none m none b) d
      = examineChild gs (PNode.mk i t nm (some []) m none b) d
    by_cases hd : d > 5
    · simp [examineChild, hd]
    · simp only [examineChild, hd, if_false]
      rfl

/-- Keys of the `_svgDownloads` entries built from the vector children. -/
theorem downloads_ivc_keys (l : List (String × ChildRec)) :
    (l.map fun p => (p.1, childToDownload p.1 p.2)).map Prod.fst = l.map Prod.fst := by
  induction l with
  | nil => rfl
  | cons p rest ih => simp [ih]

/-- Keys of the `_svgDownloads` entries built from the standalone vectors. -/
theorem downloads_sv_keys (l : List (String × StandaloneRec)) :
    (l.map fun p => (p.1, svToDownload p.1 p.2)).map Prod.fst = l.map Prod.fst := by
  induction l with
  | nil => rfl
  | cons p rest ih => simp [ih]

/-- Keys of the `_svgMapping` entries are the sanitized download keys. -/
theorem mapping_keys (l : List (String × DownloadRec)) :
    (l.map fun p => (pyReplaceColon p.1,
      ({ filename := p.2.filename, isGroup := false,
         componentName := p.2.componentName } : MappingRec))).map Prod.fst
    = (l.map Prod.fst).map pyReplaceColon := by
  induction l with
  | nil => rfl
  | cons p rest ih => simp [ih]

/-- Under unique document ids, every pair collected by the traversal shadow
is literally an entry of the `individual_vector_children` dict. -/
theorem mem_ivc_of_pairs {fd : FigmaData} (H : (docIds fd).Nodup)
    {x : String × ChildRec} (hx : x ∈ ivcPairsL (docChildren fd) "") :
    x ∈ (runAnalysis fd).ivc := by
  have hle := pairs_ids_le.2 (docChildren fd) "" none
  have hadd := Multiset.nodup_of_le hle (Multiset.coe_nodup.mpr H)
  have h1 : ((ivcPairsL (docChildren fd) "").map Prod.fst).Nodup :=
    Multiset.coe_nodup.mp (Multiset.nodup_add.mp hadd).1
  rw [runAnalysis_ivc, insertAll_eq_append (by simpa using h1)]
  simpa using hx

/-- A vector-child entry resolves in `_svgDownloads` to its download
record: children are inserted first and, under unique ids, no standalone
entry shares its key. -/
theorem lookupA_downloads_ivc {fd : FigmaData} (t : String) (H : (docIds fd).Nodup)
    {k : String} {c : ChildRec} (hm : (k, c) ∈ (runAnalysis fd).ivc) :
    lookupA (preprocessFigmaJson t fd).svgDownloads k = some (childToDownload k c) := by
  obtain ⟨hivc, _, hdisj⟩ := runAnalysis_partition fd H
  have hkivc : k ∈ (runAnalysis fd).ivc.map Prod.fst := List.mem_map.mpr ⟨(k, c), hm, rfl⟩
  have hksv : k ∉ (runAnalysis fd).sv.map Prod.fst := fun hk => hdisj hkivc hk
  rw [preprocess_downloads, lookupA_insertAll_not_mem _ (by rw [downloads_sv_keys]; exact hksv)]
  apply lookupA_insertAll_mem_nodup
  · rw [downloads_ivc_keys]
    exact hivc
  · exact List.mem_map.mpr ⟨(k, c), hm, rfl⟩

/-- A standalone entry resolves in `_svgDownloads` to its download record:
standalones are inserted last and their keys are duplicate-free. -/
theorem lookupA_downloads_sv {fd : FigmaData} (t : String)
    {k : String} {s : StandaloneRec} (hl : lookupA (runAnalysis fd).sv k = some s) :
    lookupA (preprocessFigmaJson t fd).svgDownloads k = some (svToDownload k s) := by
  have hm := lookupA_mem hl
  have hnod : ((runAnalysis fd).sv.map Prod.fst).Nodup := by
    rw [runAnalysis_sv]
    exact keys_insertAll_nodup _ (by simp)
  rw [preprocess_downloads]
  apply lookupA_insertAll_mem_nodup
  · rw [downloads_sv_keys]
    exact hnod
  · exact List.mem_map.mpr ⟨(k, s), hm, rfl⟩

/-- Counterexample to C1's attribution direction: in the nested document
the qualifying vector `1:3` inside inner group `1:2` inside outer group
`1:1` is recorded exactly once, but its parent is the OUTER group `1:1`,
not the inner one claimed by the spec; the outer traversal never reaches
the inner group as a group. -/
theorem claim_C1_counterexample :
    (runAnalysis fdNested).ivc.map Prod.fst = ["1:3"] ∧
    ((runAnalysis fdNested).ivc.map fun p => p.2.parentGroupId) = ["1:1"] ∧
    ((runAnalysis fdNested).ivc.map fun p => p.2.parentGroupId) ≠ ["1:2"] ∧
    (runAnalysis fdNested).sv = [] := by decide

/-- Claim C1 (amended): a vector admitted by the depth-capped scan of a
GROUP composite reached by the outer traversal is recorded exactly once in
`_svgDownloads`, tagged VECTOR_CHILD_FROM_GROUP, and its parent fields
name that outermost reached composite — not the nearest enclosing one. -/
theorem claim_C1 (fd : FigmaData) (t : String) (page g c0 v : PNode) (dv : Nat)
    (hpage : page ∈ docChildren fd) (hr : reachNG page g) (hG : g.typeD = "GROUP")
    (hc : c0 ∈ g.childrenD) (hs : scanFindAt c0 0 v dv) (hv : isPureVector v = true)
    (H : (docIds fd).Nodup) :
    (∃ r, lookupA (preprocessFigmaJson t fd).svgDownloads v.idD = some r ∧
      r.extractionReason = "VECTOR_CHILD_FROM_GROUP" ∧
      r.parentGroupId = some g.idD ∧ r.parentGroupName = some (g.nameOr "Unnamed")) ∧
    ((preprocessFigmaJson t fd).svgDownloads.map Prod.fst).Nodup := by
  have hi : includeCond v = true := by
    rw [includeCond_eq_isPure]
    exact hv
  have hvc : mkVecChild v ∈ vecChildListL g.childrenD 0 :=
    mem_vecChildListL_of_mem hc (vecChildList_mem_of_scanFind hs hi)
  obtain ⟨cp, hcp⟩ := ivcPairs_mem_of_reachNG hr hG hvc ""
  have hx : (v.idD, mkChildRec (mkVecChild v) cp g.idD (g.nameOr "Unnamed"))
      ∈ ivcPairsL (docChildren fd) "" := mem_ivcPairsL_of_mem hpage hcp
  have hlook := lookupA_downloads_ivc t H (mem_ivc_of_pairs H hx)
  exact ⟨⟨childToDownload v.idD (mkChildRec (mkVecChild v) cp g.idD (g.nameOr "Unnamed")),
    hlook, rfl, rfl, rfl⟩, downloads_keys_nodup t fd⟩

/-- Closed instance of C1 on the nested document: the record for `1:3`
exists and is attributed to the outer group `1:1`. -/
theorem claim_C1_witness :
    (∃ r, lookupA (preprocessFigmaJson "T" fdNested).svgDownloads "1:3" = some r ∧
      r.extractionReason = "VECTOR_CHILD_FROM_GROUP" ∧
      r.parentGroupId = some "1:1" ∧ r.parentGroupName = some "g1:1") ∧
    ((preprocessFigmaJson "T" fdNested).svgDownloads.map Prod.fst).Nodup :=
  claim_C1 fdNested "T"
    (pageNode [groupNode "1:1" [groupNode "1:2" [vecNode "1:3"]]])
    (groupNode "1:1" [groupNode "1:2" [vecNode "1:3"]])
    (groupNode "1:2" [vecNode "1:3"]) (vecNode "1:3") 1
    (List.mem_cons_self _ _)
    (reachNG.step (by decide) (List.mem_cons_self _ _) (.refl _))
    (by decide) (List.mem_cons_self _ _)
    (scanFindAt.deeper (by decide) (List.mem_cons_self _ _) (.here (by decide)))
    (by decide) (by decide)

/-- Counterexample to C4's precedence rule: a RECTANGLE that is also a
mask is tagged SHAPE, not MASK — the `elif` chain tests the shape types
before `isMask`. -/
theorem claim_C4_counterexample :
    (examineStep { stats := initState.stats, vectorChildren := [], nonVectorChildren := [] }
        (.mk (some "40:1") (some "RECTANGLE") (some "mr") none (some true) none none)).nonVectorChildren
      = ["SHAPE"] ∧
    exclReason (.mk (some "40:1") (some "RECTANGLE") (some "mr") none (some true) none none)
      ≠ "MASK" := by decide

/-- Claim C4 (amended): the group-content scan tags every excluded child
by the first matching rule of the source `elif` chain — TEXT, then
RECTANGLE/ELLIPSE as SHAPE, then isMask as MASK, else the child's own
type — so for a masked RECTANGLE or ELLIPSE the SHAPE reason takes
precedence over MASK (not the reverse, as the spec states). -/
theorem claim_C4 (stats : Stats) (g : PNode) (gs : GroupScan) (c : PNode) :
    (analyzeGroupContent stats g).nonVectorChildren = exclListL g.childrenD 0 ∧
    (examineStep gs c).nonVectorChildren
      = gs.nonVectorChildren ++ (if includeCond c then [] else [exclReason c]) ∧
    exclReason c = (if c.typeD = "TEXT" then "TEXT"
      else if c.typeD = "RECTANGLE" ∨ c.typeD = "ELLIPSE" then "SHAPE"
      else if c.maskD then "MASK" else c.typeD) ∧
    (c.maskD = true → c.typeD = "RECTANGLE" ∨ c.typeD = "ELLIPSE" → exclReason c = "SHAPE") := by
  refine ⟨?_, ?_, ?_, ?_⟩
  · rw [analyzeGroupContent, examineChildren_nv]
    rfl
  · rw [examineStep_nv]
    rfl
  · by_cases h1 : c.typeD = "TEXT"
    · simp [exclReason, h1]
    · by_cases h2 : c.typeD = "RECTANGLE" ∨ c.typeD = "ELLIPSE"
      · rcases h2 with h2 | h2 <;> simp [exclReason, h2]
      · push_neg at h2
        cases hm : c.maskD <;> simp [exclReason, h1, h2.1, h2.2, hm]
  · intro hm h2
    rcases h2 with h2 | h2 <;> simp [exclReason, h2]

/-- Closed instance of C4 at a masked ELLIPSE: the recorded reason is
SHAPE. -/
theorem claim_C4_witness :
    exclReason (.mk (some "41:1") (some "ELLIPSE") none none (some true) none none) = "SHAPE" :=
  (claim_C4 initState.stats (groupNode "1:1" [])
    { stats := initState.stats, vectorChildren := [], nonVectorChildren := [] }
    (.mk (some "41:1") (some "ELLIPSE") none none (some true) none none)).2.2.2
    rfl (Or.inr rfl)

/-- Counterexample to C5's universality: the qualifying vector `30:2`
sits inside a FRAME, is never claimed by any GROUP decomposition, yet the
pass records nothing for it — the FRAME installs a `parent_group` that
suppresses the standalone branch. -/
theorem claim_C5_counterexample :
    (∃ m, m ∈ docNodes fdMix ∧ m.idD = "30:2" ∧ isPureVector m = true) ∧
    "30:2" ∉ ((runAnalysis fdMix).ivc.map Prod.fst) ∧
    lookupA (preprocessFigmaJson "T" fdMix).svgDownloads "30:2" = none := by decide

/-- Claim C5 (amended): a qualifying node reachable from a page along a
path with no GROUP, FRAME, COMPONENT or INSTANCE ancestor — so it is
never claimed by a composite and is visited with `parent_group` still
`None` — yields an export record tagged STANDALONE_VECTOR with no parent
fields and the sanitized filename. -/
theorem claim_C5 (fd : FigmaData) (t : String) (page v : PNode)
    (hpage : page ∈ docChildren fd) (hr : reachClean page v) (hv : isPureVector v = true) :
    ∃ r, lookupA (preprocessFigmaJson t fd).svgDownloads v.idD = some r ∧
      r.extractionReason = "STANDALONE_VECTOR" ∧ r.parentGroupId = none ∧
      r.parentGroupName = none ∧ r.filename = generateFilename v.idD := by
  have hk1 : v.idD ∈ (svPairs page "" none).map Prod.fst := svPairs_key_of_reachClean hr hv ""
  obtain ⟨p, hp, hpe⟩ := List.mem_map.mp hk1
  have hk2 : v.idD ∈ (svPairsL (docChildren fd) "" none).map Prod.fst :=
    List.mem_map.mpr ⟨p, mem_svPairsL_of_mem hpage hp, hpe⟩
  obtain ⟨s, hsmem, hslook⟩ := exists_lookupA_insertAll ([] : List (String × StandaloneRec)) hk2
  have hreason := ((pairs_sound.2 (docChildren fd) "" none).2 v.idD s hsmem).2
  have hlook : lookupA (runAnalysis fd).sv v.idD = some s := by
    rw [runAnalysis_sv]
    exact hslook
  exact ⟨svToDownload v.idD s, lookupA_downloads_sv t hlook, hreason, rfl, rfl, rfl⟩

/-- Closed instance of C5: the top-level qualifying vector `20:1` of the
mixed document yields one STANDALONE_VECTOR record with filename
`20_1.svg` and no parent fields. -/
theorem claim_C5_witness :
    ∃ r, lookupA (preprocessFigmaJson "T" fdMix).svgDownloads "20:1" = some r ∧
      r.extractionReason = "STANDALONE_VECTOR" ∧ r.parentGroupId = none ∧
      r.parentGroupName = none ∧ r.filename = "20_1.svg" := by
  obtain ⟨r, h1, h2, h3, h4, h5⟩ := claim_C5 fdMix "T"
    (pageNode [groupNode "10:1" [vecNode "10:2",
        .mk (some "10:3") (some "TEXT") (some "T") none none none none,
        .mk (some "10:4") (some "RECTANGLE") (some "R") none none none none],
      vecNode "20:1",
      .mk (some "30:1") (some "FRAME") (some "F") none none (some [vecNode "30:2"]) none])
    (vecNode "20:1")
    (List.mem_cons_self _ _)
    (reachClean.step (by decide) (by decide) (by decide) (by decide)
      (List.mem_cons_of_mem _ (List.mem_cons_self _ _)) (.refl _))
    (by decide)
  exact ⟨r, h1, h2, h3, h4, by rw [h5]; decide⟩

/-- Claim C6: filename derivation is a pure function of the node id alone
— replace every colon by an underscore and append `.svg` — the examples
of the spec hold, `sanitize_svg_filename` ignores its name argument and
agrees with `_generate_filename`, and the derivation is injective on ids
in the `major:minor` format. -/
theorem claim_C6 (s1 s2 : String) (h1 : isMajorMinorB s1 = true)
    (h2 : isMajorMinorB s2 = true) (n1 n2 : String) :
    generateFilename "48:55" = "48_55.svg" ∧
    generateFilename "12:171" = "12_171.svg" ∧
    generateFilename s1 = pyReplaceColon s1 ++ ".svg" ∧
    sanitizeSvgFilename s1 n1 = generateFilename s1 ∧
    sanitizeSvgFilename s1 n1 = sanitizeSvgFilename s1 n2 ∧
    (generateFilename s1 = generateFilename s2 → s1 = s2) :=
  ⟨by decide, by decide, rfl, rfl, rfl, fun he => generateFilename_inj h1 h2 he⟩

/-- Closed instance of C6 on the spec's two example ids. -/
theorem claim_C6_witness :
    isMajorMinorB "48:55" = true ∧ isMajorMinorB "12:171" = true ∧
    (generateFilename "48:55" = generateFilename "12:171" → "48:55" = "12:171") :=
  ⟨by decide, by decide,
    (claim_C6 "48:55" "12:171" (by decide) (by decide) "a" "b").2.2.2.2.2⟩

/-- Counterexample to C7's identical-rerun property: the source stamps
`datetime.now().isoformat()` into `metadata.preprocessing.processed_at`,
so two runs at different instants produce different outputs; the model
exposes the wall-clock string as the explicit `now` argument. -/
theorem claim_C7_counterexample :
    preprocessFigmaJson "t1" fdMix ≠ preprocessFigmaJson "t2" fdMix := fun he =>
  absurd (congrArg (fun o => o.metadata.processedAt) he) (by decide)

/-- Claim C7 (amended): the preprocessing core never mutates the input
tree, and its output is a deterministic function of the input tree and
the wall-clock instant: every projection except
`metadata.processedAt` is invariant across re-runs, `processedAt` equals
the instant, and two runs at the same instant agree exactly. -/
theorem claim_C7 (t1 t2 : String) (fd : FigmaData) :
    (preprocessFigmaJson t1 fd).document = fd.document ∧
    (preprocessFigmaJson t1 fd).svgDownloads = (preprocessFigmaJson t2 fd).svgDownloads ∧
    (preprocessFigmaJson t1 fd).svgMapping = (preprocessFigmaJson t2 fd).svgMapping ∧
    (preprocessFigmaJson t1 fd).metadata.processedAt = t1 ∧
    ({ (preprocessFigmaJson t1 fd).metadata with processedAt := "" }
      = { (preprocessFigmaJson t2 fd).metadata with processedAt := "" }) ∧
    (t1 = t2 → preprocessFigmaJson t1 fd = preprocessFigmaJson t2 fd) :=
  ⟨rfl, rfl, rfl, rfl, rfl, fun h => by rw [h]⟩

/-- Closed instance of C7: two runs at one shared instant agree. -/
theorem claim_C7_witness :
    preprocessFigmaJson "T" fdMix = preprocessFigmaJson "T" fdMix :=
  (claim_C7 "T" "T" fdMix).2.2.2.2.2 rfl

/-- Counterexample to C9: a reference used only in a legacy `background`
list is returned by `_extract_image_references` but missed by
`find_image_references_and_nodes`, which scans only `fills` and
`backgrounds`; and `_extract_image_references` returns no node set at
all. -/
theorem claim_C9_counterexample :
    extractImageReferences bgOnlyDoc = ["bgref"] ∧
    findImageReferencesAndNodes bgOnlyDoc = ([], []) := by decide

/-- Claim C9 (amended): `find_image_references_and_nodes` returns exactly
the distinct imageRef values of `fills` and `backgrounds` IMAGE entries
anywhere in the tree (legacy `background` is NOT scanned), plus the
distinct nearest colon-id node ids of the objects contributing them;
`_extract_image_references` returns exactly the distinct truthy imageRef
values of `fills`, `backgrounds` and legacy `background` IMAGE entries
over the `children` tree of the `document`, and no node set. -/
theorem claim_C9 (d : Json) :
    (∀ r, r ∈ (findImageReferencesAndNodes d).1 ↔ r ∈ specRefsJson d) ∧
    (∀ n, n ∈ (findImageReferencesAndNodes d).2 ↔ n ∈ specNodesJson d none) ∧
    (findImageReferencesAndNodes d).1.Nodup ∧
    (findImageReferencesAndNodes d).2.Nodup ∧
    (∀ r, r ∈ extractImageReferences d ↔
      r ∈ specRefsNode (match jLookup d "document" with | some x => x | none => .obj [])) ∧
    (extractImageReferences d).Nodup := by
  have h1 := trav_char.1 d { refs := [], nodes := [] } none
  have h2 := travNode_char.1 (match jLookup d "document" with | some x => x | none => .obj []) []
  refine ⟨?_, ?_, h1.2.2.1 List.nodup_nil, h1.2.2.2 List.nodup_nil, ?_,
    h2.2 List.nodup_nil⟩
  · intro r
    simpa [findImageReferencesAndNodes] using h1.1 r
  · intro n
    simpa [findImageReferencesAndNodes] using h1.2.1 n
  · intro r
    simpa [extractImageReferences] using (h2.1 r)

/-- Claim C10: the `_svgMapping` key set is exactly the sanitized
`_svgDownloads` key set, and — whenever sanitization collides on no two
download keys, which holds for all native `major:minor` ids — the mapping
entry of a sanitized key carries the same filename and component name as
the download entry of the native key. -/
theorem claim_C10 (t : String) (fd : FigmaData) :
    (∀ k, k ∈ (preprocessFigmaJson t fd).svgMapping.map Prod.fst ↔
      ∃ k0, k0 ∈ (preprocessFigmaJson t fd).svgDownloads.map Prod.fst ∧
        k = pyReplaceColon k0) ∧
    ((((preprocessFigmaJson t fd).svgDownloads.map Prod.fst).map pyReplaceColon).Nodup →
      ∀ k r, lookupA (preprocessFigmaJson t fd).svgDownloads k = some r →
        lookupA (preprocessFigmaJson t fd).svgMapping (pyReplaceColon k)
          = some { filename := r.filename, isGroup := false,
                   componentName := r.componentName }) := by
  constructor
  · intro k
    rw [preprocess_mapping, mem_keys_insertAll, mapping_keys]
    simp only [List.map_nil, List.mem_map]
    constructor
    · rintro (h | ⟨k0, hk0, rfl⟩)
      · simp at h
      · exact ⟨k0, hk0, rfl⟩
    · rintro ⟨k0, hk0, rfl⟩
      exact Or.inr ⟨k0, hk0, rfl⟩
  · intro hn k r hl
    rw [preprocess_mapping]
    apply lookupA_insertAll_mem_nodup
    · rw [mapping_keys]
      exact hn
    · exact List.mem_map.mpr ⟨(k, r), lookupA_mem hl, rfl⟩

/-- Closed instance of C10 on the mixed document: the sanitized key
`20_1` resolves in `_svgMapping` to the filename and component name of
the native download entry `20:1`. -/
theorem claim_C10_witness :
    ("20_1" ∈ (preprocessFigmaJson "T" fdMix).svgMapping.map Prod.fst) ∧
    lookupA (preprocessFigmaJson "T" fdMix).svgMapping "20_1"
      = some { filename := "20_1.svg", isGroup := false, componentName := "v20:1" } := by
  constructor
  · exact ((claim_C10 "T" fdMix).1 "20_1").mpr ⟨"20:1", by decide, by decide⟩
  · have hl : lookupA (preprocessFigmaJson "T" fdMix).svgDownloads "20:1" = some
        { nodeId := "20:1", dtype := "VECTOR", isGroup := false, componentName := "v20:1",
          dpath := "Page 1/v20:1", filename := "20_1.svg",
          extractionReason := "STANDALONE_VECTOR", parentGroupId := none,
          parentGroupName := none, bounds := none } := by decide
    have h2 := (claim_C10 "T" fdMix).2 (by decide) "20:1" _ hl
    have hp : pyReplaceColon "20:1" = "20_1" := by decide
    rw [hp] at h2
    exact h2
